import Mathlib

/-!
# IAM service: credential store, session store and authentication engine

A shallow embedding of the Go packages `entity`, `persistence`, `usecase` and of the
HTTP login and user-list handlers, followed by theorems about them.

Modelling conventions.

* A Go `map[string]*T` is an association list with pairwise distinct keys
  (`GoMap T`).  `m[k] = v` is `AList.insert`, `delete(m, k)` is `AList.erase`,
  `v, ok := m[k]` is `AList.lookup`, and `for k, v := range m` walks `entries`.
  Go leaves the order of a `range` unspecified; the theorems quantify over all maps,
  hence over every order in which the entries may be met, and they are proved from
  facts about `lookup` alone, which no reordering of the entries changes.
* Records are stored by value.  No method of the repositories or use cases writes
  through a stored pointer, so aliasing is not observable in the operations below.
* Every repository method holds the repository mutex for its whole body, so a
  method is one atomic state transition `state -> result × state`.
* Goroutines that run `Register` concurrently are interleaved between these
  transitions: a schedule names, stretch after stretch, the call that runs up to and
  including its next repository call.
* `time.Now()`, `uuid.New()`, `crypto/rand` and `bcrypt` are inputs of the
  operations that call them.
* A Go `error` result is `Option Error` (`none` is `nil`); a `(value, error)` result
  is `Except Error value`.
-/

set_option linter.dupNamespace false

namespace IamService

/-! ## Time -/

/-- Go `time.Time`: an instant, counted in nanoseconds. -/
abbrev Time := Int

/-- Go `t.After(u)`: `t` is strictly later than `u`. -/
def Time.After (t u : Time) : Bool := decide (u < t)

/-- Go `time.Hour`, in nanoseconds. -/
def Hour : Int := 3600 * 1000000000

/-- Go `t.Add(d)`. -/
def Time.Add (t : Time) (d : Int) : Time := t + d

/-! ## Errors -/

/-- The sentinel errors of package `entity` (`user.go`, `session.go`); `library`
stands for an error value produced by `bcrypt` or `crypto/rand`. -/
inductive Error where
  | ErrInvalidEmail
  | ErrInvalidUsername
  | ErrInvalidPassword
  | ErrUserNotFound
  | ErrUserExists
  | ErrSessionNotFound
  | ErrSessionExpired
  | ErrInvalidToken
  | library (msg : String)
  deriving DecidableEq, Repr

/-- Go `err.Error()`: the message given to `errors.New`. -/
def Error.Error : Error → String
  | .ErrInvalidEmail => "invalid email address"
  | .ErrInvalidUsername => "invalid username"
  | .ErrInvalidPassword => "invalid password"
  | .ErrUserNotFound => "user not found"
  | .ErrUserExists => "user already exists"
  | .ErrSessionNotFound => "session not found"
  | .ErrSessionExpired => "session expired"
  | .ErrInvalidToken => "invalid token"
  | .library msg => msg

deriving instance DecidableEq for Except

/-- Go `context.Context`, reduced to whether it has been cancelled. -/
structure Context where
  canceled : Bool
  deriving DecidableEq, Repr

/-! ## Entities -/

/-- Go `entity.User`. -/
structure User where
  ID : String
  Email : String
  Username : String
  Password : String
  CreatedAt : Time
  UpdatedAt : Time
  deriving DecidableEq, Repr

/-- Go `entity.Session`. -/
structure Session where
  ID : String
  UserID : String
  Token : String
  ExpiresAt : Time
  CreatedAt : Time
  deriving DecidableEq, Repr

/-- The two `bcrypt` functions used by `entity.User`: `GenerateFromPassword` (at the
default cost) and `CompareHashAndPassword`, the latter as the truth value of
`err == nil`, with the stored hash as first argument. -/
structure Bcrypt where
  GenerateFromPassword : String → Except Error String
  CompareHashAndPassword : String → String → Bool

/-- Verification accepts the plaintext that was hashed. -/
def Bcrypt.Sound (bc : Bcrypt) : Prop :=
  ∀ password hash, bc.GenerateFromPassword password = .ok hash →
    bc.CompareHashAndPassword hash password = true

/-- Go `entity.NewUser`; `now` is the reading of `time.Now()`. The `ID` field is
left at its zero value. -/
def NewUser (bc : Bcrypt) (now : Time) (email username password : String) :
    Except Error User :=
  if email = "" then .error .ErrInvalidEmail
  else if username = "" then .error .ErrInvalidUsername
  else if password = "" then .error .ErrInvalidPassword
  else
    match bc.GenerateFromPassword password with
    | .error err => .error err
    | .ok hashedPassword =>
      .ok { ID := "", Email := email, Username := username, Password := hashedPassword,
            CreatedAt := now, UpdatedAt := now }

/-- Go `(*User).CheckPassword`. -/
def User.CheckPassword (u : User) (bc : Bcrypt) (password : String) : Bool :=
  bc.CompareHashAndPassword u.Password password

/-- Go `entity.NewSession`; `now` is the reading of `time.Now()` taken inside it. The
`ID` field is left at its zero value. -/
def NewSession (now : Time) (userID token : String) (expiresAt : Time) : Session :=
  { ID := "", UserID := userID, Token := token, ExpiresAt := expiresAt, CreatedAt := now }

/-- Go `(*Session).IsExpired`; `now` is the reading of `time.Now()`. -/
def Session.IsExpired (s : Session) (now : Time) : Bool :=
  Time.After now s.ExpiresAt

/-! ## Go maps -/

/-- A Go `map[string]*V`. -/
abbrev GoMap (V : Type) := AList (fun _ : String => V)

instance GoMap.instDecidableEq {V : Type} [DecidableEq V] : DecidableEq (GoMap V) :=
  fun a b => decidable_of_iff (a.entries = b.entries) ⟨AList.ext, fun h => congrArg _ h⟩

/-- The Go loop `for k, v := range m { if p(k, v) { delete(m, k) } }`. The loop walks
the entries the map had when it started; the only key it deletes is the one it is at. -/
def GoMap.rangeDelete {V : Type} (m : GoMap V) (p : String → V → Bool) : GoMap V :=
  m.entries.foldl (fun acc e => if p e.1 e.2 then acc.erase e.1 else acc) m

/-! ## Go integers, slices and panics -/

/-- The outcome of a Go call that can end in a run-time panic. -/
inductive Run (α : Type) where
  | returns (v : α)
  | panics
  deriving DecidableEq, Repr

/-- The largest value of a Go `int` on a 64-bit platform. -/
def maxInt : Int := 9223372036854775807

/-- The value of a Go `int` on a 64-bit platform is within the 64-bit signed range. -/
def IsGoInt (x : Int) : Prop := -9223372036854775808 ≤ x ∧ x ≤ 9223372036854775807

instance (x : Int) : Decidable (IsGoInt x) := by unfold IsGoInt; infer_instance

/-- The result of Go `int` arithmetic: the mathematical result, wrapped around in two's
complement to 64 bits. -/
def wrapInt (x : Int) : Int :=
  (x + 9223372036854775808) % 18446744073709551616 - 9223372036854775808

/-- The Go slice expression `s[low:high]` on a slice whose capacity is its length: it
panics unless `0 <= low <= high <= len(s)`. -/
def goSlice {α : Type} (s : List α) (low high : Int) : Run (List α) :=
  if 0 ≤ low ∧ low ≤ high ∧ high ≤ (s.length : Int) then
    .returns ((s.drop low.toNat).take (high - low).toNat)
  else .panics

/-! ## Credential store (`persistence/inmemory_user_repository.go`) -/

/-- Go `persistence.InMemoryUserRepository`. -/
structure InMemoryUserRepository where
  users : GoMap User
  deriving DecidableEq

/-- Go `NewInMemoryUserRepository`. -/
def NewInMemoryUserRepository : InMemoryUserRepository := { users := ∅ }

/-- Go `(*InMemoryUserRepository).Create`. -/
def InMemoryUserRepository.Create (r : InMemoryUserRepository) (_ctx : Context)
    (user : User) : Option Error × InMemoryUserRepository :=
  if r.users.entries.any (fun e => e.2.Email == user.Email || e.2.Username == user.Username)
  then (some .ErrUserExists, r)
  else (none, { users := r.users.insert user.ID user })

/-- Go `(*InMemoryUserRepository).GetByID`. -/
def InMemoryUserRepository.GetByID (r : InMemoryUserRepository) (_ctx : Context)
    (id : String) : Except Error User :=
  match r.users.lookup id with
  | none => .error .ErrUserNotFound
  | some user => .ok user

/-- Go `(*InMemoryUserRepository).GetByEmail`. -/
def InMemoryUserRepository.GetByEmail (r : InMemoryUserRepository) (_ctx : Context)
    (email : String) : Except Error User :=
  match r.users.entries.find? (fun e => e.2.Email == email) with
  | some e => .ok e.2
  | none => .error .ErrUserNotFound

/-- Go `(*InMemoryUserRepository).GetByUsername`. -/
def InMemoryUserRepository.GetByUsername (r : InMemoryUserRepository) (_ctx : Context)
    (username : String) : Except Error User :=
  match r.users.entries.find? (fun e => e.2.Username == username) with
  | some e => .ok e.2
  | none => .error .ErrUserNotFound

/-- Go `(*InMemoryUserRepository).Update`. -/
def InMemoryUserRepository.Update (r : InMemoryUserRepository) (_ctx : Context)
    (user : User) : Option Error × InMemoryUserRepository :=
  match r.users.lookup user.ID with
  | none => (some .ErrUserNotFound, r)
  | some _ => (none, { users := r.users.insert user.ID user })

/-- Go `(*InMemoryUserRepository).Delete`. -/
def InMemoryUserRepository.Delete (r : InMemoryUserRepository) (_ctx : Context)
    (id : String) : Option Error × InMemoryUserRepository :=
  match r.users.lookup id with
  | none => (some .ErrUserNotFound, r)
  | some _ => (none, { users := r.users.erase id })

/-- Go `(*InMemoryUserRepository).List`. The slice `users` is built with capacity
`len(r.users)` and filled by a range over the map, so its capacity is its length. -/
def InMemoryUserRepository.List (r : InMemoryUserRepository) (_ctx : Context)
    (offset limit : Int) : Run (List User × Option Error) :=
  let users := r.users.entries.map (fun e => e.2)
  let start := offset
  if start > (users.length : Int) then .returns ([], none)
  else
    let end0 := wrapInt (start + limit)
    let end1 := if end0 > (users.length : Int) then (users.length : Int) else end0
    match goSlice users start end1 with
    | .panics => .panics
    | .returns page => .returns (page, none)

/-! ## Session store (`persistence/inmemory_session_repository.go`) -/

/-- Go `persistence.InMemorySessionRepository`. -/
structure InMemorySessionRepository where
  sessions : GoMap Session
  deriving DecidableEq

/-- Go `NewInMemorySessionRepository`. -/
def NewInMemorySessionRepository : InMemorySessionRepository := { sessions := ∅ }

/-- Go `(*InMemorySessionRepository).Create`. -/
def InMemorySessionRepository.Create (r : InMemorySessionRepository) (_ctx : Context)
    (session : Session) : Option Error × InMemorySessionRepository :=
  (none, { sessions := r.sessions.insert session.Token session })

/-- Go `(*InMemorySessionRepository).GetByToken`. -/
def InMemorySessionRepository.GetByToken (r : InMemorySessionRepository) (_ctx : Context)
    (token : String) : Except Error Session :=
  match r.sessions.lookup token with
  | none => .error .ErrSessionNotFound
  | some session => .ok session

/-- Go `(*InMemorySessionRepository).Delete`. -/
def InMemorySessionRepository.Delete (r : InMemorySessionRepository) (_ctx : Context)
    (token : String) : Option Error × InMemorySessionRepository :=
  (none, { sessions := r.sessions.erase token })

/-- Go `(*InMemorySessionRepository).GetByUserID`. -/
def InMemorySessionRepository.GetByUserID (r : InMemorySessionRepository) (_ctx : Context)
    (userID : String) : Except Error (List Session) :=
  .ok ((r.sessions.entries.filter (fun e => e.2.UserID == userID)).map (fun e => e.2))

/-- Go `(*InMemorySessionRepository).DeleteByUserID`. -/
def InMemorySessionRepository.DeleteByUserID (r : InMemorySessionRepository)
    (_ctx : Context) (userID : String) : Option Error × InMemorySessionRepository :=
  (none, { sessions := r.sessions.rangeDelete (fun _ session => session.UserID == userID) })

/-- Go `(*InMemorySessionRepository).DeleteExpired`; `now` is the reading of
`time.Now()`. -/
def InMemorySessionRepository.DeleteExpired (r : InMemorySessionRepository) (now : Time)
    (_ctx : Context) : Option Error × InMemorySessionRepository :=
  let expired := fun (_ : String) (session : Session) => Time.After now session.ExpiresAt
  (none, { sessions := r.sessions.rangeDelete expired })

/-! ## Token generator (`usecase/auth_usecase.go`, `encoding/base64`) -/

/-- A byte. -/
abbrev Byte := Fin 256

/-- The alphabet of Go `base64.URLEncoding`. -/
def encodeURL : List Char :=
  "ABCDEFGHIJKLMNOPQRSTUVWXYZabcdefghijklmnopqrstuvwxyz0123456789-_".toList

/-- The character of the URL alphabet for a six-bit value. -/
def encodeURLChar (n : Nat) : Char := encodeURL.getD (n % 64) 'A'

/-- Go `(*base64.Encoding).Encode` for `URLEncoding`: three bytes give four
characters; a final group of one or two bytes is padded with `=`. -/
def base64Encode : List Byte → List Char
  | a :: b :: c :: rest =>
    let val := a.val * 65536 + b.val * 256 + c.val
    encodeURLChar (val / 262144) :: encodeURLChar (val / 4096) ::
      encodeURLChar (val / 64) :: encodeURLChar val :: base64Encode rest
  | [a, b] =>
    let val := a.val * 65536 + b.val * 256
    [encodeURLChar (val / 262144), encodeURLChar (val / 4096), encodeURLChar (val / 64), '=']
  | [a] =>
    let val := a.val * 65536
    [encodeURLChar (val / 262144), encodeURLChar (val / 4096), '=', '=']
  | [] => []

/-- Go `base64.URLEncoding.EncodeToString`. -/
def EncodeToString (src : List Byte) : String := String.mk (base64Encode src)

/-- Go `crypto/rand.Read` on a buffer of the given length: the bytes written, or an
error. -/
abbrev RandReader := Nat → Except Error (List Byte)

/-- Go `usecase.generateToken`. -/
def generateToken (rand : RandReader) : Except Error String :=
  match rand 32 with
  | .error err => .error err
  | .ok b => .ok (EncodeToString b)

/-! ## Authentication engine (`usecase/auth_usecase.go`) -/

/-- Go `usecase.AuthUseCase`, with the two repositories that `cmd/api/main.go` wires
into it. -/
structure AuthUseCase where
  userRepo : InMemoryUserRepository
  sessionRepo : InMemorySessionRepository
  deriving DecidableEq

/-- Go `(*AuthUseCase).Register`. `now` is the reading of `time.Now()` in `NewUser`,
`uuid` the value of `uuid.New().String()`. -/
def AuthUseCase.Register (a : AuthUseCase) (bc : Bcrypt) (now : Time) (uuid : String)
    (ctx : Context) (email username password : String) : Except Error User × AuthUseCase :=
  match a.userRepo.GetByEmail ctx email with
  | .ok _ => (.error .ErrUserExists, a)
  | .error _ =>
    match a.userRepo.GetByUsername ctx username with
    | .ok _ => (.error .ErrUserExists, a)
    | .error _ =>
      match NewUser bc now email username password with
      | .error err => (.error err, a)
      | .ok user =>
        let user := { user with ID := uuid }
        match a.userRepo.Create ctx user with
        | (some err, repo) => (.error err, { a with userRepo := repo })
        | (none, repo) => (.ok user, { a with userRepo := repo })

/-- The user lookup at the head of Go `(*AuthUseCase).Login`: by email first, by
username when that fails. -/
def AuthUseCase.findUser (a : AuthUseCase) (ctx : Context) (emailOrUsername : String) :
    Except Error User :=
  match a.userRepo.GetByEmail ctx emailOrUsername with
  | .ok user => .ok user
  | .error _ =>
    match a.userRepo.GetByUsername ctx emailOrUsername with
    | .ok user => .ok user
    | .error _ => .error .ErrUserNotFound

/-- Go `(*AuthUseCase).Login`. `now` is the reading of `time.Now()` from which the
expiry is computed, `created` the later reading taken inside `NewSession`, `uuid` the
value of `uuid.New().String()`. -/
def AuthUseCase.Login (a : AuthUseCase) (bc : Bcrypt) (rand : RandReader)
    (now created : Time) (uuid : String) (ctx : Context)
    (emailOrUsername password : String) : Except Error Session × AuthUseCase :=
  match a.findUser ctx emailOrUsername with
  | .error err => (.error err, a)
  | .ok user =>
    if !user.CheckPassword bc password then (.error .ErrInvalidPassword, a)
    else
      match generateToken rand with
      | .error err => (.error err, a)
      | .ok token =>
        let session := NewSession created user.ID token (Time.Add now (24 * Hour))
        let session := { session with ID := uuid }
        match a.sessionRepo.Create ctx session with
        | (some err, repo) => (.error err, { a with sessionRepo := repo })
        | (none, repo) => (.ok session, { a with sessionRepo := repo })

/-- Go `(*AuthUseCase).Logout`. -/
def AuthUseCase.Logout (a : AuthUseCase) (ctx : Context) (token : String) :
    Option Error × AuthUseCase :=
  let (err, repo) := a.sessionRepo.Delete ctx token
  (err, { a with sessionRepo := repo })

/-- Go `(*AuthUseCase).ValidateSession`; `now` is the reading of `time.Now()` in
`IsExpired`. -/
def AuthUseCase.ValidateSession (a : AuthUseCase) (now : Time) (ctx : Context)
    (token : String) : Except Error Session × AuthUseCase :=
  match a.sessionRepo.GetByToken ctx token with
  | .error err => (.error err, a)
  | .ok session =>
    if session.IsExpired now then
      let (_, repo) := a.sessionRepo.Delete ctx token
      (.error .ErrSessionExpired, { a with sessionRepo := repo })
    else (.ok session, a)

/-! ## User management (`usecase/user_usecase.go`) -/

/-- Go `usecase.UserUseCase`. -/
structure UserUseCase where
  userRepo : InMemoryUserRepository
  deriving DecidableEq

/-- Go `(*UserUseCase).DeleteUser`. -/
def UserUseCase.DeleteUser (u : UserUseCase) (ctx : Context) (id : String) :
    Option Error × UserUseCase :=
  let (err, repo) := u.userRepo.Delete ctx id
  (err, { userRepo := repo })

/-- The two stores of the running service. `cmd/api/main.go` creates one user repository
and one session repository and hands the user repository to both use cases. -/
structure Service where
  userRepo : InMemoryUserRepository
  sessionRepo : InMemorySessionRepository
  deriving DecidableEq

/-- The stores after `DeleteUser` is called on the service's user use case. -/
def Service.DeleteUser (sv : Service) (ctx : Context) (id : String) :
    Option Error × Service :=
  let (err, uc) := UserUseCase.DeleteUser { userRepo := sv.userRepo } ctx id
  (err, { sv with userRepo := uc.userRepo })

/-! ## HTTP login handler (`infrastructure/http/auth_handler.go`) -/

/-- Go `http.LoginRequest`. -/
structure LoginRequest where
  EmailOrUsername : String
  Password : String
  deriving DecidableEq, Repr

/-- Modelled from the spec: the `Response` type and `respondJSON` are declared in a
file of package `http` that is not among the sources; a reply is recorded as the
status code and the `Success`, `Error` and `Data` fields that the handler passes to
`respondJSON`. -/
structure Reply where
  status : Nat
  Success : Bool
  Error : String
  Data : Option Session
  deriving DecidableEq, Repr

/-- Go `(*AuthHandler).Login`. `method` is `r.Method`; `body` is the decoded request
body, `none` when decoding fails. -/
def AuthHandler.Login (a : AuthUseCase) (bc : Bcrypt) (rand : RandReader)
    (now created : Time) (uuid : String) (ctx : Context)
    (method : String) (body : Option LoginRequest) : Reply × AuthUseCase :=
  if method ≠ "POST" then
    ({ status := 405, Success := false, Error := "method not allowed", Data := none }, a)
  else
    match body with
    | none =>
      ({ status := 400, Success := false, Error := "invalid request body", Data := none }, a)
    | some req =>
      match a.Login bc rand now created uuid ctx req.EmailOrUsername req.Password with
      | (.error err, a1) =>
        ({ status := 401, Success := false, Error := err.Error, Data := none }, a1)
      | (.ok session, a1) =>
        ({ status := 200, Success := true, Error := "", Data := some session }, a1)

/-! ## HTTP user-list handler (`infrastructure/http/user_handler.go`) -/

/-- Go `(*UserUseCase).ListUsers`. -/
def UserUseCase.ListUsers (u : UserUseCase) (ctx : Context) (offset limit : Int) :
    Run (List User × Option Error) :=
  u.userRepo.List ctx offset limit

/-- Modelled from the spec: the `Response` type and `respondJSON` are declared in a
file of package `http` that is not among the sources; the reply of the user-list handler
is recorded as the status code and the `Success`, `Error` and `Data` fields that the
handler passes to `respondJSON`. -/
structure ListReply where
  status : Nat
  Success : Bool
  Error : String
  Data : Option (List User)
  deriving DecidableEq, Repr

/-- Go `(*UserHandler).ListUsers`. `method` is `r.Method`; `offset` and `limit` are the
values `strconv.Atoi` returns for the two query parameters (its error is discarded, so a
missing or malformed parameter arrives as 0). -/
def UserHandler.ListUsers (u : UserUseCase) (ctx : Context) (method : String)
    (offset limit : Int) : Run ListReply :=
  if method ≠ "GET" then
    .returns { status := 405, Success := false, Error := "method not allowed", Data := none }
  else
    let limit := if limit = 0 then 10 else limit
    match u.ListUsers ctx offset limit with
    | .panics => .panics
    | .returns (_, some err) =>
      .returns { status := 500, Success := false, Error := err.Error, Data := none }
    | .returns (users, none) =>
      .returns { status := 200, Success := true, Error := "", Data := some users }

/-! ## Concurrent registrations (`usecase/auth_usecase.go`) -/

/-- The arguments of one call of Go `(*AuthUseCase).Register`, with the reading `now` of
`time.Now()` and the value `uuid` of `uuid.New().String()` that the call draws. -/
structure RegisterCall where
  email : String
  username : String
  password : String
  now : Time
  uuid : String
  deriving DecidableEq

/-- Where a call of Go `(*AuthUseCase).Register` stands. The call makes three calls on
the credential store, `GetByEmail`, `GetByUsername` and `Create`, each of which holds the
mutex of the store for its whole body; between them other goroutines may run. -/
inductive RegisterPhase where
  | lookupEmail
  | lookupUsername
  | create (user : User)
  | finished (result : Except Error User)
  deriving DecidableEq

/-- The next stretch of Go `(*AuthUseCase).Register`, up to and including its next call
on the credential store `r`: the `GetByEmail` check; the `GetByUsername` check followed
by `NewUser` and the assignment of the identifier, which touch no shared state; the
`Create` call. -/
def RegisterCall.step (c : RegisterCall) (bc : Bcrypt) (ctx : Context)
    (r : InMemoryUserRepository) : RegisterPhase → RegisterPhase × InMemoryUserRepository
  | .lookupEmail =>
    match r.GetByEmail ctx c.email with
    | .ok _ => (.finished (.error .ErrUserExists), r)
    | .error _ => (.lookupUsername, r)
  | .lookupUsername =>
    match r.GetByUsername ctx c.username with
    | .ok _ => (.finished (.error .ErrUserExists), r)
    | .error _ =>
      match NewUser bc c.now c.email c.username c.password with
      | .error err => (.finished (.error err), r)
      | .ok user => (.create { user with ID := c.uuid }, r)
  | .create user =>
    match r.Create ctx user with
    | (some err, repo) => (.finished (.error err), repo)
    | (none, repo) => (.finished (.ok user), repo)
  | .finished result => (.finished result, r)

/-- Concurrent calls of `Register` on one credential store: the store and, for each
call, where it stands. -/
structure Registrations where
  store : InMemoryUserRepository
  phase : Nat → RegisterPhase

/-- Every call is about to start on the store `r`. -/
def Registrations.start (r : InMemoryUserRepository) : Registrations :=
  { store := r, phase := fun _ => .lookupEmail }

/-- The scheduler lets call `i` run up to and including its next call on the store. A
call that has returned stays as it is. -/
def Registrations.step (bc : Bcrypt) (ctx : Context) (calls : Nat → RegisterCall)
    (s : Registrations) (i : Nat) : Registrations :=
  let next := (calls i).step bc ctx s.store (s.phase i)
  { store := next.2, phase := fun j => if j = i then next.1 else s.phase j }

/-- An interleaving: the calls run in the order the schedule names them. -/
def Registrations.run (bc : Bcrypt) (ctx : Context) (calls : Nat → RegisterCall)
    (s : Registrations) (schedule : List Nat) : Registrations :=
  schedule.foldl (Registrations.step bc ctx calls) s

/-! ## Specification vocabulary -/

/-- Some stored user has the email of `u` or the username of `u`. -/
def InMemoryUserRepository.Collides (r : InMemoryUserRepository) (u : User) : Prop :=
  ∃ k v, r.users.lookup k = some v ∧ (v.Email = u.Email ∨ v.Username = u.Username)

/-- No two users stored under different ids share an email, and no two share a
username. -/
def InMemoryUserRepository.Unique (r : InMemoryUserRepository) : Prop :=
  ∀ k1 k2 v1 v2, r.users.lookup k1 = some v1 → r.users.lookup k2 = some v2 → k1 ≠ k2 →
    v1.Email ≠ v2.Email ∧ v1.Username ≠ v2.Username

/-- One call on the credential store. -/
inductive UserOp where
  | Create (u : User)
  | Update (u : User)
  | Delete (id : String)

/-- A sequence of calls on the credential store. -/
abbrev UserOps := List UserOp

/-- The store after one call, whatever the call returned. -/
def InMemoryUserRepository.apply (r : InMemoryUserRepository) (ctx : Context) :
    UserOp → InMemoryUserRepository
  | .Create u => (r.Create ctx u).2
  | .Update u => (r.Update ctx u).2
  | .Delete id => (r.Delete ctx id).2

/-- The store after a sequence of calls. -/
def InMemoryUserRepository.run (r : InMemoryUserRepository) (ctx : Context)
    (ops : UserOps) : InMemoryUserRepository :=
  ops.foldl (fun r op => r.apply ctx op) r

/-- A call that is not an `Update` writing an email or a username which is stored under
another id at the time of the call. An `Update` of an absent id writes nothing. -/
def InMemoryUserRepository.Admits (r : InMemoryUserRepository) : UserOp → Prop
  | .Update u => r.users.lookup u.ID = none ∨
      ∀ k v, r.users.lookup k = some v → k ≠ u.ID →
        v.Email ≠ u.Email ∧ v.Username ≠ u.Username
  | _ => True

/-- Every call of the sequence is admitted by the store it is applied to. -/
def InMemoryUserRepository.AdmitsAll (r : InMemoryUserRepository) (ctx : Context) :
    UserOps → Prop
  | [] => True
  | op :: ops => r.Admits op ∧ (r.apply ctx op).AdmitsAll ctx ops

/-- Some stored user has the email `e`. -/
def InMemoryUserRepository.HasEmail (r : InMemoryUserRepository) (e : String) : Prop :=
  ∃ k v, r.users.lookup k = some v ∧ v.Email = e

/-- Each of the first `n` calls has returned. -/
def Registrations.Complete (s : Registrations) (n : Nat) : Prop :=
  ∀ i, i < n → ∃ result, s.phase i = .finished result

/-- How many of its three calls on the store a call has behind it. -/
def RegisterPhase.rank : RegisterPhase → Nat
  | .lookupEmail => 0
  | .lookupUsername => 1
  | .create _ => 2
  | .finished _ => 3

/-- What holds throughout the run of `n` calls that all register the email `e`: a
stored user has the email `e` or none of the requested usernames; a call about to create
holds a record with the email `e` and its own username; while no stored user has the
email no call has returned; and once one has, a single call has succeeded, its record is
the only one with the email, and every other call that has returned failed with
`ErrUserExists`. -/
def Registrations.Inv (calls : Nat → RegisterCall) (n : Nat) (e : String)
    (s : Registrations) : Prop :=
  (∀ k v, s.store.users.lookup k = some v →
    v.Email = e ∨ ∀ i, i < n → v.Username ≠ (calls i).username) ∧
  (∀ i, i < n → ∀ u, s.phase i = .create u →
    u.Email = e ∧ u.Username = (calls i).username) ∧
  (¬ s.store.HasEmail e → ∀ i, i < n → ∀ result, s.phase i ≠ .finished result) ∧
  (s.store.HasEmail e → ∃ w u k, w < n ∧ s.phase w = .finished (.ok u) ∧
    s.store.users.lookup k = some u ∧ u.Email = e ∧
    (∀ k1 v, s.store.users.lookup k1 = some v → v.Email = e → k1 = k) ∧
    ∀ j, j < n → j ≠ w → ∀ result, s.phase j = .finished result →
      result = .error .ErrUserExists)

/-! ## Sample data -/

/-- A sample user. -/
def alice : User :=
  { ID := "1", Email := "alice@example.com", Username := "alice", Password := "h1",
    CreatedAt := 0, UpdatedAt := 0 }

/-- A second sample user. -/
def bob : User :=
  { ID := "2", Email := "bob@example.com", Username := "bob", Password := "h2",
    CreatedAt := 1, UpdatedAt := 1 }

/-- A context that has not been cancelled. -/
def background : Context := { canceled := false }

/-- A sample hashing scheme: the hash of a password is the password behind a marker,
and verification recomputes it. -/
def sampleBcrypt : Bcrypt :=
  { GenerateFromPassword := fun password => .ok ("h:" ++ password)
    CompareHashAndPassword := fun hash password => hash == "h:" ++ password }

/-- A random source that delivers zero bytes. -/
def zeroRand : RandReader := fun n => .ok (List.replicate n 0)

/-- The engine over two empty repositories, as `cmd/api/main.go` builds it. -/
def emptyEngine : AuthUseCase :=
  { userRepo := NewInMemoryUserRepository, sessionRepo := NewInMemorySessionRepository }

/-- The engine after Alice has registered. -/
def aliceEngine : AuthUseCase :=
  (emptyEngine.Register sampleBcrypt 5 "id1" background
    "alice@example.com" "alice" "correct-password").2

/-- The record that Alice's registration stores. -/
def aliceRecord : User :=
  { ID := "id1", Email := "alice@example.com", Username := "alice",
    Password := "h:correct-password", CreatedAt := 5, UpdatedAt := 5 }

/-- The session that Alice's login creates. -/
def aliceSession : Session :=
  { ID := "s1", UserID := "id1", Token := EncodeToString (List.replicate 32 0),
    ExpiresAt := Time.Add 10 (24 * Hour), CreatedAt := 11 }

/-- The engine after Alice has registered and logged in. -/
def loggedInEngine : AuthUseCase :=
  (aliceEngine.Login sampleBcrypt zeroRand 10 11 "s1" background
    "alice@example.com" "correct-password").2

/-- The six-bit value of a character of the URL alphabet. -/
def decodeURLChar (c : Char) : Nat := encodeURL.indexOf c

/-- A byte from a number. -/
def toByte (n : Nat) : Byte := ⟨n % 256, Nat.mod_lt _ (by decide)⟩

/-- The inverse of `base64Encode`: four characters give three bytes, a final group
padded with `=` gives one or two. -/
def base64Decode : List Char → List Byte
  | c0 :: c1 :: c2 :: c3 :: rest =>
    if c2 = '=' then
      [toByte ((decodeURLChar c0 * 262144 + decodeURLChar c1 * 4096) / 65536)]
    else if c3 = '=' then
      let val := decodeURLChar c0 * 262144 + decodeURLChar c1 * 4096 + decodeURLChar c2 * 64
      [toByte (val / 65536), toByte (val / 256)]
    else
      let val := decodeURLChar c0 * 262144 + decodeURLChar c1 * 4096 +
        decodeURLChar c2 * 64 + decodeURLChar c3
      toByte (val / 65536) :: toByte (val / 256) :: toByte val :: base64Decode rest
  | _ => []

/-- The record stored by a registration whose username is the string of Alice's email. -/
def bobRecord : User :=
  { ID := "id2", Email := "bob@example.com", Username := "alice@example.com",
    Password := "h:hunter2", CreatedAt := 6, UpdatedAt := 6 }

/-- The engine after Alice, and then a user whose username is Alice's email, have
registered. -/
def capturedEngine : AuthUseCase :=
  (aliceEngine.Register sampleBcrypt 6 "id2" background
    "bob@example.com" "alice@example.com" "hunter2").2

/-- The record of a third user, registered with the password Alice also chose, after an
`Update` has given it Alice's email. -/
def carolRecord : User :=
  { ID := "id3", Email := "alice@example.com", Username := "carol",
    Password := "h:correct-password", CreatedAt := 7, UpdatedAt := 7 }

/-- The engine after a third user has registered and an `Update` has given her record
Alice's email. -/
def duplicateEngine : AuthUseCase :=
  let a := (capturedEngine.Register sampleBcrypt 7 "id3" background
    "carol@example.com" "carol" "correct-password").2
  { a with userRepo := (a.userRepo.Update background carolRecord).2 }

/-- The engine holding the records of `duplicateEngine`, met by a range in another
order. -/
def reorderedEngine : AuthUseCase :=
  { userRepo :=
      { users := (((∅ : GoMap User).insert "id3" carolRecord).insert "id2" bobRecord).insert
          "id1" aliceRecord }
    sessionRepo := NewInMemorySessionRepository }

/-- The engine after Alice and Bob have registered. -/
def pairEngine : AuthUseCase :=
  (aliceEngine.Register sampleBcrypt 6 "id2" background
    "bob@example.com" "bob" "hunter2").2

/-- Two calls that register one new email with valid fields and usernames nobody has. -/
def carolCalls : Nat → RegisterCall := fun i =>
  { email := "carol@example.com", username := if i = 0 then "carol" else "caroline",
    password := "carol-password", now := 8, uuid := if i = 0 then "id3" else "id4" }

/-- Two calls that register one new email under the usernames of Alice and of Bob. -/
def takenCalls : Nat → RegisterCall := fun i =>
  { email := "carol@example.com", username := if i = 0 then "alice" else "bob",
    password := "carol-password", now := 8, uuid := if i = 0 then "id3" else "id4" }

/-- Two calls that register one new email with an empty password. -/
def emptyPasswordCalls : Nat → RegisterCall := fun i =>
  { email := "carol@example.com", username := if i = 0 then "carol" else "caroline",
    password := "", now := 8, uuid := if i = 0 then "id3" else "id4" }

/-! ## Theorems: Go maps -/

/-- A value met by a range over the map is the value stored under its key. -/
theorem GoMap.mem_entries_iff {V : Type} (m : GoMap V) (k : String) (v : V) :
    (⟨k, v⟩ : Sigma fun _ : String => V) ∈ m.entries ↔ m.lookup k = some v := by
  rw [← AList.mem_lookup_iff]; exact Option.mem_def

/-- A loop that searches the map for a value passing a test succeeds exactly when some
stored value passes it. -/
theorem GoMap.any_iff {V : Type} (m : GoMap V) (p : V → Bool) :
    m.entries.any (fun e => p e.2) = true ↔ ∃ k v, m.lookup k = some v ∧ p v = true := by
  rw [List.any_eq_true]
  constructor
  · rintro ⟨⟨k, v⟩, hmem, hp⟩
    exact ⟨k, v, (GoMap.mem_entries_iff m k v).1 hmem, hp⟩
  · rintro ⟨k, v, hl, hp⟩
    exact ⟨⟨k, v⟩, (GoMap.mem_entries_iff m k v).2 hl, hp⟩

/-- The value at which a searching range stops is stored and passes the test. -/
theorem GoMap.find_some {V : Type} (m : GoMap V) (p : V → Bool)
    (e : Sigma fun _ : String => V) (h : m.entries.find? (fun e => p e.2) = some e) :
    m.lookup e.1 = some e.2 ∧ p e.2 = true := by
  have h1 := List.mem_of_find?_eq_some h
  have h2 := List.find?_some h
  exact ⟨(GoMap.mem_entries_iff m e.1 e.2).1 h1, h2⟩

/-- When a searching range finds nothing, no stored value passes the test. -/
theorem GoMap.find_none {V : Type} (m : GoMap V) (p : V → Bool)
    (h : m.entries.find? (fun e => p e.2) = none) (k : String) (v : V)
    (hl : m.lookup k = some v) : p v = false := by
  have h1 := List.find?_eq_none.1 h ⟨k, v⟩ ((GoMap.mem_entries_iff m k v).2 hl)
  simpa using h1

/-! ## Theorems: credential store -/

theorem InMemoryUserRepository.scan_iff (r : InMemoryUserRepository) (u : User) :
    r.users.entries.any (fun e => e.2.Email == u.Email || e.2.Username == u.Username) = true
      ↔ r.Collides u := by
  rw [GoMap.any_iff r.users (fun v => v.Email == u.Email || v.Username == u.Username)]
  simp [InMemoryUserRepository.Collides]

theorem InMemoryUserRepository.Create_of_collides (r : InMemoryUserRepository)
    (ctx : Context) (u : User) (h : r.Collides u) :
    r.Create ctx u = (some .ErrUserExists, r) := by
  unfold InMemoryUserRepository.Create
  rw [if_pos ((r.scan_iff u).2 h)]

theorem InMemoryUserRepository.Create_of_not_collides (r : InMemoryUserRepository)
    (ctx : Context) (u : User) (h : ¬ r.Collides u) :
    r.Create ctx u = (none, { users := r.users.insert u.ID u }) := by
  unfold InMemoryUserRepository.Create
  rw [if_neg (fun hc => h ((r.scan_iff u).1 hc))]

/-- C1. `Create` returns `ErrUserExists` exactly when some stored user has the email or
the username of `u`; it then leaves the store unchanged. Otherwise it returns `nil`,
the new store maps `u.ID` to `u`, and every other key keeps its entry. -/
theorem Create_contract (r : InMemoryUserRepository) (ctx : Context) (u : User) :
    ((r.Create ctx u).1 = some Error.ErrUserExists ↔
        ∃ k v, r.users.lookup k = some v ∧ (v.Email = u.Email ∨ v.Username = u.Username)) ∧
    ((r.Create ctx u).1 = some Error.ErrUserExists → (r.Create ctx u).2 = r) ∧
    ((r.Create ctx u).1 ≠ some Error.ErrUserExists →
        (r.Create ctx u).1 = none ∧
        (r.Create ctx u).2.users.lookup u.ID = some u ∧
        ∀ k, k ≠ u.ID → (r.Create ctx u).2.users.lookup k = r.users.lookup k) := by
  by_cases h : r.Collides u
  · rw [r.Create_of_collides ctx u h]
    exact ⟨⟨fun _ => h, fun _ => rfl⟩, fun _ => rfl, fun hne => absurd rfl hne⟩
  · rw [r.Create_of_not_collides ctx u h]
    refine ⟨⟨fun hc => by simp at hc, fun hc => absurd hc h⟩, fun hc => by simp at hc,
      fun _ => ?_⟩
    exact ⟨rfl, AList.lookup_insert _, fun k hk => AList.lookup_insert_ne hk⟩

theorem InMemoryUserRepository.Unique_insert (r : InMemoryUserRepository) (u : User)
    (h : r.Unique)
    (hno : ∀ k v, r.users.lookup k = some v → k ≠ u.ID →
      v.Email ≠ u.Email ∧ v.Username ≠ u.Username) :
    InMemoryUserRepository.Unique { users := r.users.insert u.ID u } := by
  intro k1 k2 v1 v2 h1 h2 hne
  simp only at h1 h2
  by_cases e1 : k1 = u.ID
  · have e2 : k2 ≠ u.ID := fun e => hne (e1.trans e.symm)
    rw [e1, AList.lookup_insert] at h1
    rw [AList.lookup_insert_ne e2] at h2
    cases h1
    have := hno k2 v2 h2 e2
    exact ⟨fun e => this.1 e.symm, fun e => this.2 e.symm⟩
  · rw [AList.lookup_insert_ne e1] at h1
    by_cases e2 : k2 = u.ID
    · rw [e2, AList.lookup_insert] at h2
      cases h2
      exact hno k1 v1 h1 e1
    · rw [AList.lookup_insert_ne e2] at h2
      exact h k1 k2 v1 v2 h1 h2 hne

theorem InMemoryUserRepository.Unique_erase (r : InMemoryUserRepository) (id : String)
    (h : r.Unique) : InMemoryUserRepository.Unique { users := r.users.erase id } := by
  intro k1 k2 v1 v2 h1 h2 hne
  simp only at h1 h2
  have e1 : k1 ≠ id := by
    intro e; rw [e, AList.lookup_erase] at h1; cases h1
  have e2 : k2 ≠ id := by
    intro e; rw [e, AList.lookup_erase] at h2; cases h2
  rw [AList.lookup_erase_ne e1] at h1
  rw [AList.lookup_erase_ne e2] at h2
  exact h k1 k2 v1 v2 h1 h2 hne

theorem InMemoryUserRepository.Unique_apply (r : InMemoryUserRepository) (ctx : Context)
    (op : UserOp) (h : r.Unique) (ha : r.Admits op) : (r.apply ctx op).Unique := by
  cases op with
  | Create u =>
    by_cases hc : r.Collides u
    · simpa [InMemoryUserRepository.apply, r.Create_of_collides ctx u hc] using h
    · simp only [InMemoryUserRepository.apply, r.Create_of_not_collides ctx u hc]
      refine r.Unique_insert u h (fun k v hl _ => ?_)
      exact ⟨fun e => hc ⟨k, v, hl, Or.inl e⟩, fun e => hc ⟨k, v, hl, Or.inr e⟩⟩
  | Update u =>
    simp only [InMemoryUserRepository.apply, InMemoryUserRepository.Update]
    cases hl : r.users.lookup u.ID with
    | none => simpa using h
    | some w =>
      rcases ha with ha | ha
      · rw [hl] at ha; cases ha
      · exact r.Unique_insert u h ha
  | Delete id =>
    simp only [InMemoryUserRepository.apply, InMemoryUserRepository.Delete]
    cases hl : r.users.lookup id with
    | none => simpa using h
    | some w => exact r.Unique_erase id h

theorem InMemoryUserRepository.Unique_run (ctx : Context) (ops : UserOps) :
    ∀ r : InMemoryUserRepository, r.Unique → r.AdmitsAll ctx ops → (r.run ctx ops).Unique := by
  induction ops with
  | nil => intro r h _; exact h
  | cons op ops ih =>
    intro r h ha
    exact ih (r.apply ctx op) (r.Unique_apply ctx op h ha.1) ha.2

theorem NewInMemoryUserRepository_Unique : NewInMemoryUserRepository.Unique := by
  intro k1 k2 v1 v2 h1
  simp [NewInMemoryUserRepository] at h1

/-- C2, counterexample. Two successful `Create` calls followed by an `Update` that gives
the second user the email of the first leave two ids sharing an email. -/
theorem uniqueness_broken_by_Update :
    ¬ (NewInMemoryUserRepository.run background
        [.Create alice, .Create bob,
         .Update { bob with Email := "alice@example.com" }]).Unique := by
  intro h
  exact (h "1" "2" alice { bob with Email := "alice@example.com" }
    (by decide) (by decide) (by decide)).1 (by decide)

/-- C2, amended. Starting from the empty store, after every sequence of `Create`,
`Update` and `Delete` calls in which no `Update` writes an email or a username stored
under another id, no two ids share an email and no two share a username. -/
theorem uniqueness_invariant (ctx : Context) (ops : UserOps)
    (h : NewInMemoryUserRepository.AdmitsAll ctx ops) :
    (NewInMemoryUserRepository.run ctx ops).Unique :=
  InMemoryUserRepository.Unique_run ctx ops _ NewInMemoryUserRepository_Unique h

theorem uniqueness_invariant_witness :
    NewInMemoryUserRepository.AdmitsAll background
        [.Create alice, .Create bob, .Update { bob with Username := "robert" }, .Delete "1"] ∧
    (NewInMemoryUserRepository.run background
        [.Create alice, .Create bob, .Update { bob with Username := "robert" },
         .Delete "1"]).Unique := by
  have h : NewInMemoryUserRepository.AdmitsAll background
        [.Create alice, .Create bob, .Update { bob with Username := "robert" },
         .Delete "1"] := by
    refine ⟨trivial, trivial, Or.inr ?_, trivial, trivial⟩
    intro k v hl hk
    have hmem := (GoMap.mem_entries_iff _ k v).2 hl
    have hent : (((NewInMemoryUserRepository.apply background (.Create alice)).apply
        background (.Create bob)).users.entries) = [⟨"2", bob⟩, ⟨"1", alice⟩] := by decide
    rw [hent] at hmem
    simp only [List.mem_cons, List.mem_singleton, Sigma.mk.inj_iff, List.not_mem_nil,
      or_false] at hmem
    rcases hmem with ⟨hk2, _⟩ | ⟨_, hv⟩
    · exact absurd hk2 hk
    · have hv := eq_of_heq hv
      subst hv
      exact ⟨by decide, by decide⟩
  exact ⟨h, uniqueness_invariant _ _ h⟩

/-! ## Theorems: lookups and registration -/

theorem InMemoryUserRepository.GetByEmail_ok (r : InMemoryUserRepository) (ctx : Context)
    (email : String) (u : User) (h : r.GetByEmail ctx email = .ok u) :
    ∃ k, r.users.lookup k = some u ∧ u.Email = email := by
  unfold InMemoryUserRepository.GetByEmail at h
  split at h
  · rename_i e he
    cases h
    have := GoMap.find_some r.users (fun v => v.Email == email) e he
    exact ⟨e.1, this.1, by simpa using this.2⟩
  · cases h

theorem InMemoryUserRepository.GetByEmail_error (r : InMemoryUserRepository) (ctx : Context)
    (email : String) (err : Error) (h : r.GetByEmail ctx email = .error err) :
    err = .ErrUserNotFound ∧ ∀ k v, r.users.lookup k = some v → v.Email ≠ email := by
  unfold InMemoryUserRepository.GetByEmail at h
  split at h
  · cases h
  · rename_i he
    cases h
    refine ⟨rfl, fun k v hl => ?_⟩
    have := GoMap.find_none r.users (fun v => v.Email == email) he k v hl
    simpa using this

theorem InMemoryUserRepository.GetByUsername_ok (r : InMemoryUserRepository) (ctx : Context)
    (username : String) (u : User) (h : r.GetByUsername ctx username = .ok u) :
    ∃ k, r.users.lookup k = some u ∧ u.Username = username := by
  unfold InMemoryUserRepository.GetByUsername at h
  split at h
  · rename_i e he
    cases h
    have := GoMap.find_some r.users (fun v => v.Username == username) e he
    exact ⟨e.1, this.1, by simpa using this.2⟩
  · cases h

theorem InMemoryUserRepository.GetByUsername_error (r : InMemoryUserRepository)
    (ctx : Context) (username : String) (err : Error)
    (h : r.GetByUsername ctx username = .error err) :
    err = .ErrUserNotFound ∧ ∀ k v, r.users.lookup k = some v → v.Username ≠ username := by
  unfold InMemoryUserRepository.GetByUsername at h
  split at h
  · cases h
  · rename_i he
    cases h
    refine ⟨rfl, fun k v hl => ?_⟩
    have := GoMap.find_none r.users (fun v => v.Username == username) he k v hl
    simpa using this

/-- A stored user whose email nobody else has is the one `GetByEmail` returns. -/
theorem InMemoryUserRepository.GetByEmail_unique (r : InMemoryUserRepository) (ctx : Context)
    (u : User) (k : String) (hk : r.users.lookup k = some u)
    (huniq : ∀ k' v, r.users.lookup k' = some v → v.Email = u.Email → v = u) :
    r.GetByEmail ctx u.Email = .ok u := by
  cases h : r.GetByEmail ctx u.Email with
  | error err => exact absurd rfl ((r.GetByEmail_error ctx _ err h).2 k u hk)
  | ok v =>
    obtain ⟨k', hk', hv⟩ := r.GetByEmail_ok ctx _ v h
    rw [huniq k' v hk' hv]

theorem InMemoryUserRepository.GetByUsername_unique (r : InMemoryUserRepository)
    (ctx : Context) (u : User) (k : String) (hk : r.users.lookup k = some u)
    (huniq : ∀ k' v, r.users.lookup k' = some v → v.Username = u.Username → v = u) :
    r.GetByUsername ctx u.Username = .ok u := by
  cases h : r.GetByUsername ctx u.Username with
  | error err => exact absurd rfl ((r.GetByUsername_error ctx _ err h).2 k u hk)
  | ok v =>
    obtain ⟨k', hk', hv⟩ := r.GetByUsername_ok ctx _ v h
    rw [huniq k' v hk' hv]

/-- What a successful `NewUser` returns. -/
theorem NewUser_ok (bc : Bcrypt) (now : Time) (email username password : String) (u : User)
    (h : NewUser bc now email username password = .ok u) :
    email ≠ "" ∧ username ≠ "" ∧ password ≠ "" ∧
    ∃ hash, bc.GenerateFromPassword password = .ok hash ∧
      u = { ID := "", Email := email, Username := username, Password := hash,
            CreatedAt := now, UpdatedAt := now } := by
  unfold NewUser at h
  split_ifs at h with h1 h2 h3
  refine ⟨h1, h2, h3, ?_⟩
  cases hg : bc.GenerateFromPassword password with
  | error err => rw [hg] at h; cases h
  | ok hash => rw [hg] at h; cases h; exact ⟨hash, rfl, rfl⟩

/-- What a successful `Register` did. -/
theorem AuthUseCase.Register_ok (a : AuthUseCase) (bc : Bcrypt) (now : Time) (uuid : String)
    (ctx : Context) (email username password : String) (u : User) (a1 : AuthUseCase)
    (h : a.Register bc now uuid ctx email username password = (.ok u, a1)) :
    email ≠ "" ∧ username ≠ "" ∧ password ≠ "" ∧
    (∃ hash, bc.GenerateFromPassword password = .ok hash ∧
      u = { ID := uuid, Email := email, Username := username, Password := hash,
            CreatedAt := now, UpdatedAt := now }) ∧
    ¬ a.userRepo.Collides u ∧
    a1 = { a with userRepo := { users := a.userRepo.users.insert uuid u } } := by
  unfold AuthUseCase.Register at h
  cases hE : a.userRepo.GetByEmail ctx email with
  | ok v => rw [hE] at h; cases h
  | error e1 =>
    rw [hE] at h
    cases hU : a.userRepo.GetByUsername ctx username with
    | ok v => rw [hU] at h; cases h
    | error e2 =>
      rw [hU] at h
      cases hN : NewUser bc now email username password with
      | error e3 => rw [hN] at h; cases h
      | ok w =>
        rw [hN] at h
        obtain ⟨h1, h2, h3, hash, hg, hw⟩ := NewUser_ok bc now email username password w hN
        subst hw
        simp only at h
        by_cases hc : a.userRepo.Collides
            { ID := uuid, Email := email, Username := username, Password := hash,
              CreatedAt := now, UpdatedAt := now }
        · rw [a.userRepo.Create_of_collides ctx _ hc] at h; cases h
        · rw [a.userRepo.Create_of_not_collides ctx _ hc] at h
          cases h
          exact ⟨h1, h2, h3, ⟨hash, hg, rfl⟩, hc, rfl⟩

/-- After a successful `Register`, the new user is the only stored one with its email and
the only one with its username. -/
theorem AuthUseCase.Register_stored (a : AuthUseCase) (bc : Bcrypt) (now : Time)
    (uuid : String) (ctx : Context) (email username password : String) (u : User)
    (a1 : AuthUseCase)
    (h : a.Register bc now uuid ctx email username password = (.ok u, a1)) :
    u.ID = uuid ∧ u.Email = email ∧ u.Username = username ∧
    (∃ hash, bc.GenerateFromPassword password = .ok hash ∧ u.Password = hash) ∧
    a1.userRepo.users.lookup uuid = some u ∧
    a1.sessionRepo = a.sessionRepo ∧
    (∀ k v, a1.userRepo.users.lookup k = some v →
      v = u ∨ (a.userRepo.users.lookup k = some v ∧
        v.Email ≠ email ∧ v.Username ≠ username)) := by
  obtain ⟨_, _, _, ⟨hash, hg, hu⟩, hc, ha1⟩ :=
    a.Register_ok bc now uuid ctx email username password u a1 h
  subst ha1
  refine ⟨by rw [hu], by rw [hu], by rw [hu], ⟨hash, hg, by rw [hu]⟩,
    AList.lookup_insert _, rfl, fun k v hl => ?_⟩
  simp only at hl
  by_cases hk : k = uuid
  · rw [hk, AList.lookup_insert] at hl
    cases hl; exact Or.inl rfl
  · rw [AList.lookup_insert_ne hk] at hl
    refine Or.inr ⟨hl, fun e => hc ⟨k, v, hl, Or.inl ?_⟩, fun e => hc ⟨k, v, hl, Or.inr ?_⟩⟩
    · rw [e, hu]
    · rw [e, hu]

/-- `Login` once the user is found, the password verifies and the random source
delivers. -/
theorem AuthUseCase.Login_ok (a : AuthUseCase) (bc : Bcrypt) (rand : RandReader)
    (now created : Time) (uuid : String) (ctx : Context) (emailOrUsername password : String)
    (u : User) (b : List Byte)
    (hfind : a.findUser ctx emailOrUsername = .ok u)
    (hpw : u.CheckPassword bc password = true)
    (hrand : rand 32 = .ok b) :
    a.Login bc rand now created uuid ctx emailOrUsername password =
      (.ok { ID := uuid, UserID := u.ID, Token := EncodeToString b,
             ExpiresAt := Time.Add now (24 * Hour), CreatedAt := created },
       { a with sessionRepo :=
          { sessions := a.sessionRepo.sessions.insert (EncodeToString b)
              { ID := uuid, UserID := u.ID, Token := EncodeToString b,
                ExpiresAt := Time.Add now (24 * Hour), CreatedAt := created } } }) := by
  simp [AuthUseCase.Login, hfind, hpw, generateToken, hrand, NewSession,
    InMemorySessionRepository.Create]

/-- `Login` when the user is found and the password does not verify. -/
theorem AuthUseCase.Login_wrong_password (a : AuthUseCase) (bc : Bcrypt) (rand : RandReader)
    (now created : Time) (uuid : String) (ctx : Context) (emailOrUsername password : String)
    (u : User)
    (hfind : a.findUser ctx emailOrUsername = .ok u)
    (hpw : u.CheckPassword bc password = false) :
    a.Login bc rand now created uuid ctx emailOrUsername password =
      (.error .ErrInvalidPassword, a) := by
  simp [AuthUseCase.Login, hfind, hpw]

/-- `Login` when neither lookup finds the identifier. -/
theorem AuthUseCase.Login_not_found (a : AuthUseCase) (bc : Bcrypt) (rand : RandReader)
    (now created : Time) (uuid : String) (ctx : Context) (emailOrUsername password : String)
    (err : Error)
    (hfind : a.findUser ctx emailOrUsername = .error err) :
    a.Login bc rand now created uuid ctx emailOrUsername password =
      (.error .ErrUserNotFound, a) := by
  have : err = .ErrUserNotFound := by
    unfold AuthUseCase.findUser at hfind
    split at hfind
    · cases hfind
    · split at hfind
      · cases hfind
      · cases hfind; rfl
  subst this
  simp [AuthUseCase.Login, hfind]

/-! ## Theorems: registration followed by login -/

theorem sampleBcrypt_Sound : sampleBcrypt.Sound := by
  intro password hash h
  simp only [sampleBcrypt] at h
  cases h
  simp [sampleBcrypt]

/-- C3, counterexample. With a hashing scheme whose verification accepts what it hashed
and a random source that delivers: after Alice registered, a registration whose username
is the string of Alice's email succeeds, yet the login that follows with that username
and the new password is resolved to Alice's record by the email lookup and fails with
`ErrInvalidPassword`. -/
theorem login_after_register_can_fail :
    sampleBcrypt.Sound ∧
    zeroRand 32 = .ok (List.replicate 32 0) ∧
    (aliceEngine.Register sampleBcrypt 6 "id2" background
        "bob@example.com" "alice@example.com" "hunter2").1 =
      .ok { ID := "id2", Email := "bob@example.com", Username := "alice@example.com",
            Password := "h:hunter2", CreatedAt := 6, UpdatedAt := 6 } ∧
    ((aliceEngine.Register sampleBcrypt 6 "id2" background
        "bob@example.com" "alice@example.com" "hunter2").2.Login sampleBcrypt zeroRand
        10 11 "s1" background "alice@example.com" "hunter2").1 =
      .error .ErrInvalidPassword :=
  ⟨sampleBcrypt_Sound, rfl, by decide, by decide⟩

/-- C3, amended. With hashing whose verification accepts the plaintext it hashed and a
random source that delivers the token bytes: if `Register` succeeds returning `u`, then
the following `Login` with the email and the same password succeeds with a session of
`u`; the `Login` with the username succeeds likewise provided no user stored before the
registration has that string as email. The engine `a2` that logs in holds the records
`Register` left, met by the lookups in any order. -/
theorem register_then_login (a : AuthUseCase) (bc : Bcrypt) (hbc : bc.Sound)
    (now : Time) (uuid : String) (ctx : Context) (email username password : String)
    (u : User) (a1 : AuthUseCase)
    (hreg : a.Register bc now uuid ctx email username password = (.ok u, a1))
    (a2 : AuthUseCase)
    (hsame : ∀ k, a2.userRepo.users.lookup k = a1.userRepo.users.lookup k)
    (rand : RandReader) (b : List Byte) (hrand : rand 32 = .ok b)
    (now1 created : Time) (uuid1 : String) (ctx1 : Context) :
    (∃ s a3, a2.Login bc rand now1 created uuid1 ctx1 email password = (.ok s, a3) ∧
        s.UserID = u.ID) ∧
    ((∀ k v, a.userRepo.users.lookup k = some v → v.Email ≠ username) →
      ∃ s a3, a2.Login bc rand now1 created uuid1 ctx1 username password = (.ok s, a3) ∧
        s.UserID = u.ID) := by
  obtain ⟨hid, hem, hun, ⟨hash, hg, hpw⟩, hst1, _, hall1⟩ :=
    a.Register_stored bc now uuid ctx email username password u a1 hreg
  have hst : a2.userRepo.users.lookup uuid = some u := by rw [hsame]; exact hst1
  have hall : ∀ k v, a2.userRepo.users.lookup k = some v →
      v = u ∨ (a.userRepo.users.lookup k = some v ∧
        v.Email ≠ email ∧ v.Username ≠ username) :=
    fun k v hl => hall1 k v (by rw [← hsame]; exact hl)
  have hcheck : u.CheckPassword bc password = true := by
    unfold User.CheckPassword; rw [hpw]; exact hbc password hash hg
  have hE : a2.userRepo.GetByEmail ctx1 email = .ok u := by
    rw [← hem]
    refine a2.userRepo.GetByEmail_unique ctx1 u uuid hst (fun k v hl hv => ?_)
    rcases hall k v hl with h | ⟨_, h, _⟩
    · exact h
    · exact absurd (hv.trans hem) h
  have hU : a2.userRepo.GetByUsername ctx1 username = .ok u := by
    rw [← hun]
    refine a2.userRepo.GetByUsername_unique ctx1 u uuid hst (fun k v hl hv => ?_)
    rcases hall k v hl with h | ⟨_, _, h⟩
    · exact h
    · exact absurd (hv.trans hun) h
  constructor
  · have hfind : a2.findUser ctx1 email = .ok u := by
      simp [AuthUseCase.findUser, hE]
    exact ⟨_, _, a2.Login_ok bc rand now1 created uuid1 ctx1 email password u b hfind hcheck
      hrand, rfl⟩
  · intro hfree
    have hfind : a2.findUser ctx1 username = .ok u := by
      unfold AuthUseCase.findUser
      cases hE2 : a2.userRepo.GetByEmail ctx1 username with
      | ok v =>
        obtain ⟨k, hk, hv⟩ := a2.userRepo.GetByEmail_ok ctx1 username v hE2
        rcases hall k v hk with h | ⟨h, _, _⟩
        · rw [h]
        · exact absurd hv (hfree k v h)
      | error err => simp [hU]
    exact ⟨_, _, a2.Login_ok bc rand now1 created uuid1 ctx1 username password u b hfind
      hcheck hrand, rfl⟩

theorem register_then_login_witness :
    sampleBcrypt.Sound ∧
    emptyEngine.Register sampleBcrypt 5 "id1" background
        "alice@example.com" "alice" "correct-password" =
      (.ok { ID := "id1", Email := "alice@example.com", Username := "alice",
             Password := "h:correct-password", CreatedAt := 5, UpdatedAt := 5 },
       aliceEngine) ∧
    zeroRand 32 = .ok (List.replicate 32 0) ∧
    (∃ s a2, aliceEngine.Login sampleBcrypt zeroRand 10 11 "s1" background
        "alice@example.com" "correct-password" = (.ok s, a2) ∧ s.UserID = "id1") ∧
    (∃ s a2, aliceEngine.Login sampleBcrypt zeroRand 10 11 "s1" background
        "alice" "correct-password" = (.ok s, a2) ∧ s.UserID = "id1") := by
  have hreg : emptyEngine.Register sampleBcrypt 5 "id1" background
        "alice@example.com" "alice" "correct-password" =
      (.ok { ID := "id1", Email := "alice@example.com", Username := "alice",
             Password := "h:correct-password", CreatedAt := 5, UpdatedAt := 5 },
       aliceEngine) := by decide
  have h := register_then_login emptyEngine sampleBcrypt sampleBcrypt_Sound 5 "id1"
    background "alice@example.com" "alice" "correct-password" _ _ hreg aliceEngine
    (fun _ => rfl) zeroRand (List.replicate 32 0) rfl 10 11 "s1" background
  refine ⟨sampleBcrypt_Sound, hreg, rfl, h.1, h.2 (fun k v hl => ?_)⟩
  simp [emptyEngine, NewInMemoryUserRepository] at hl

/-! ## Theorems: failing registrations -/

theorem InMemoryUserRepository.GetByEmail_none (r : InMemoryUserRepository) (ctx : Context)
    (email : String) (h : ∀ k v, r.users.lookup k = some v → v.Email ≠ email) :
    r.GetByEmail ctx email = .error .ErrUserNotFound := by
  cases hE : r.GetByEmail ctx email with
  | ok v =>
    obtain ⟨k, hk, hv⟩ := r.GetByEmail_ok ctx email v hE
    exact absurd hv (h k v hk)
  | error err => rw [(r.GetByEmail_error ctx email err hE).1]

theorem InMemoryUserRepository.GetByUsername_none (r : InMemoryUserRepository)
    (ctx : Context) (username : String)
    (h : ∀ k v, r.users.lookup k = some v → v.Username ≠ username) :
    r.GetByUsername ctx username = .error .ErrUserNotFound := by
  cases hU : r.GetByUsername ctx username with
  | ok v =>
    obtain ⟨k, hk, hv⟩ := r.GetByUsername_ok ctx username v hU
    exact absurd hv (h k v hk)
  | error err => rw [(r.GetByUsername_error ctx username err hU).1]

/-- `Register` when a stored user already has the email or the username. -/
theorem AuthUseCase.Register_of_collides (a : AuthUseCase) (bc : Bcrypt) (now : Time)
    (uuid : String) (ctx : Context) (email username password : String)
    (h : ∃ k v, a.userRepo.users.lookup k = some v ∧
      (v.Email = email ∨ v.Username = username)) :
    a.Register bc now uuid ctx email username password = (.error .ErrUserExists, a) := by
  unfold AuthUseCase.Register
  cases hE : a.userRepo.GetByEmail ctx email with
  | ok v => rfl
  | error e1 =>
    cases hU : a.userRepo.GetByUsername ctx username with
    | ok v => rfl
    | error e2 =>
      obtain ⟨k, v, hl, hv | hv⟩ := h
      · exact absurd hv ((a.userRepo.GetByEmail_error ctx email e1 hE).2 k v hl)
      · exact absurd hv ((a.userRepo.GetByUsername_error ctx username e2 hU).2 k v hl)

/-- `Register` when no stored user has the email or the username: the outcome of
`NewUser` decides. -/
theorem AuthUseCase.Register_of_free_invalid (a : AuthUseCase) (bc : Bcrypt) (now : Time)
    (uuid : String) (ctx : Context) (email username password : String) (err : Error)
    (h : ¬ ∃ k v, a.userRepo.users.lookup k = some v ∧
      (v.Email = email ∨ v.Username = username))
    (hnew : NewUser bc now email username password = .error err) :
    a.Register bc now uuid ctx email username password = (.error err, a) := by
  have hE := a.userRepo.GetByEmail_none ctx email
    (fun k v hl e => h ⟨k, v, hl, Or.inl e⟩)
  have hU := a.userRepo.GetByUsername_none ctx username
    (fun k v hl e => h ⟨k, v, hl, Or.inr e⟩)
  simp [AuthUseCase.Register, hE, hU, hnew]

theorem NewUser_of_empty (bc : Bcrypt) (now : Time) (email username password : String)
    (h : email = "" ∨ username = "" ∨ password = "") :
    NewUser bc now email username password =
      .error (if email = "" then .ErrInvalidEmail
              else if username = "" then .ErrInvalidUsername else .ErrInvalidPassword) := by
  unfold NewUser
  by_cases h1 : email = ""
  · simp [h1]
  · by_cases h2 : username = ""
    · simp [h1, h2]
    · have h3 : password = "" := by
        rcases h with h | h | h
        · exact absurd h h1
        · exact absurd h h2
        · exact h
      simp [h1, h2, h3]

/-- C4. When a stored user has the email `email`, or a stored user has the username
`username`, `Register` fails with `ErrUserExists` whatever the other arguments are, and
leaves both stores unchanged. -/
theorem Register_existing_email_or_username (a : AuthUseCase) (bc : Bcrypt) (now : Time)
    (uuid : String) (ctx : Context) (email username password : String)
    (h : ∃ k v, a.userRepo.users.lookup k = some v ∧
      (v.Email = email ∨ v.Username = username)) :
    a.Register bc now uuid ctx email username password = (.error .ErrUserExists, a) :=
  a.Register_of_collides bc now uuid ctx email username password h

theorem Register_existing_email_or_username_witness :
    (∃ k v, aliceEngine.userRepo.users.lookup k = some v ∧
      (v.Email = "alice@example.com" ∨ v.Username = "alice2")) ∧
    aliceEngine.Register sampleBcrypt 6 "id2" background
        "alice@example.com" "alice2" "other-password" =
      (.error .ErrUserExists, aliceEngine) :=
  have h : ∃ k v, aliceEngine.userRepo.users.lookup k = some v ∧
      (v.Email = "alice@example.com" ∨ v.Username = "alice2") :=
    ⟨"id1", { ID := "id1", Email := "alice@example.com", Username := "alice",
              Password := "h:correct-password", CreatedAt := 5, UpdatedAt := 5 },
      by decide, Or.inl rfl⟩
  ⟨h, Register_existing_email_or_username aliceEngine sampleBcrypt 6 "id2" background
    "alice@example.com" "alice2" "other-password" h⟩

/-- C5, counterexample. After Alice registered, a registration with her email and an
empty username and password, and one with her username and an empty email and password,
both fail with `ErrUserExists`, not with an invalid-input error. -/
theorem exists_check_precedes_validation :
    (aliceEngine.Register sampleBcrypt 6 "id2" background "alice@example.com" "" "").1 =
      .error .ErrUserExists ∧
    (aliceEngine.Register sampleBcrypt 6 "id2" background "" "alice" "").1 =
      .error .ErrUserExists := by
  constructor <;> decide

/-- C5, amended. When one of the three strings is empty, `Register` fails and leaves the
stores unchanged; the error is `ErrUserExists` when a stored user has the email or the
username, and otherwise `ErrInvalidEmail`, `ErrInvalidUsername` or `ErrInvalidPassword`
for the first empty field. -/
theorem Register_empty_field (a : AuthUseCase) (bc : Bcrypt) (now : Time)
    (uuid : String) (ctx : Context) (email username password : String)
    (h : email = "" ∨ username = "" ∨ password = "") :
    (a.Register bc now uuid ctx email username password).2 = a ∧
    ((∃ k v, a.userRepo.users.lookup k = some v ∧
        (v.Email = email ∨ v.Username = username)) →
      (a.Register bc now uuid ctx email username password).1 = .error .ErrUserExists) ∧
    ((¬ ∃ k v, a.userRepo.users.lookup k = some v ∧
        (v.Email = email ∨ v.Username = username)) →
      (a.Register bc now uuid ctx email username password).1 =
        .error (if email = "" then .ErrInvalidEmail
                else if username = "" then .ErrInvalidUsername
                else .ErrInvalidPassword)) := by
  by_cases hc : ∃ k v, a.userRepo.users.lookup k = some v ∧
      (v.Email = email ∨ v.Username = username)
  · rw [a.Register_of_collides bc now uuid ctx email username password hc]
    exact ⟨rfl, fun _ => rfl, fun hn => absurd hc hn⟩
  · rw [a.Register_of_free_invalid bc now uuid ctx email username password _ hc
      (NewUser_of_empty bc now email username password h)]
    exact ⟨rfl, fun hn => absurd hn hc, fun _ => rfl⟩

theorem Register_empty_field_witness :
    ("alice@example.com" = "" ∨ "" = "" ∨ "secret" = "") ∧
    (emptyEngine.Register sampleBcrypt 5 "id1" background "alice@example.com" "" "secret").2 =
      emptyEngine ∧
    (emptyEngine.Register sampleBcrypt 5 "id1" background "alice@example.com" "" "secret").1 =
      .error .ErrInvalidUsername := by
  have h := Register_empty_field emptyEngine sampleBcrypt 5 "id1" background
    "alice@example.com" "" "secret" (Or.inr (Or.inl rfl))
  refine ⟨Or.inr (Or.inl rfl), h.1, ?_⟩
  have h3 := h.2.2 (by
    rintro ⟨k, v, hl, _⟩
    simp [emptyEngine, NewInMemoryUserRepository] at hl)
  simpa using h3

/-! ## Theorems: failing logins -/

/-- The lookup of `Login` fails when no stored user has the identifier as email or as
username. -/
theorem AuthUseCase.findUser_none (a : AuthUseCase) (ctx : Context) (identifier : String)
    (h : ∀ k v, a.userRepo.users.lookup k = some v →
      v.Email ≠ identifier ∧ v.Username ≠ identifier) :
    a.findUser ctx identifier = .error .ErrUserNotFound := by
  have hE := a.userRepo.GetByEmail_none ctx identifier (fun k v hl => (h k v hl).1)
  have hU := a.userRepo.GetByUsername_none ctx identifier (fun k v hl => (h k v hl).2)
  simp [AuthUseCase.findUser, hE, hU]

/-- The user found by the lookup of `Login` is stored and has the identifier as email or
as username. -/
theorem AuthUseCase.findUser_ok (a : AuthUseCase) (ctx : Context) (identifier : String)
    (u : User) (h : a.findUser ctx identifier = .ok u) :
    ∃ k, a.userRepo.users.lookup k = some u ∧
      (u.Email = identifier ∨ u.Username = identifier) := by
  unfold AuthUseCase.findUser at h
  cases hE : a.userRepo.GetByEmail ctx identifier with
  | ok v =>
    rw [hE] at h; cases h
    obtain ⟨k, hk, hv⟩ := a.userRepo.GetByEmail_ok ctx identifier u hE
    exact ⟨k, hk, Or.inl hv⟩
  | error e1 =>
    rw [hE] at h
    cases hU : a.userRepo.GetByUsername ctx identifier with
    | ok v =>
      rw [hU] at h; cases h
      obtain ⟨k, hk, hv⟩ := a.userRepo.GetByUsername_ok ctx identifier u hU
      exact ⟨k, hk, Or.inr hv⟩
    | error e2 => rw [hU] at h; cases h

/-- C6. When the identifier resolves to a stored user and the password does not verify
against that user's hash, `Login` fails with `ErrInvalidPassword` and the session store
(and the user store) after the call is the one before it. -/
theorem Login_wrong_password_creates_no_session (a : AuthUseCase) (bc : Bcrypt)
    (rand : RandReader) (now created : Time) (uuid : String) (ctx : Context)
    (identifier password : String) (u : User)
    (hfind : a.findUser ctx identifier = .ok u)
    (hpw : u.CheckPassword bc password = false) :
    (a.Login bc rand now created uuid ctx identifier password).1 =
        .error .ErrInvalidPassword ∧
    (a.Login bc rand now created uuid ctx identifier password).2.sessionRepo =
        a.sessionRepo ∧
    (a.Login bc rand now created uuid ctx identifier password).2.userRepo = a.userRepo := by
  rw [a.Login_wrong_password bc rand now created uuid ctx identifier password u hfind hpw]
  exact ⟨rfl, rfl, rfl⟩

theorem Login_wrong_password_creates_no_session_witness :
    aliceEngine.findUser background "alice@example.com" =
      .ok aliceRecord ∧
    (aliceEngine.Login sampleBcrypt zeroRand 10 11 "s1" background
        "alice@example.com" "wrong-password").1 = .error .ErrInvalidPassword ∧
    (aliceEngine.Login sampleBcrypt zeroRand 10 11 "s1" background
        "alice@example.com" "wrong-password").2.sessionRepo = aliceEngine.sessionRepo :=
  have hfind : aliceEngine.findUser background "alice@example.com" =
      .ok aliceRecord := by decide
  have h := Login_wrong_password_creates_no_session aliceEngine sampleBcrypt zeroRand 10 11
    "s1" background "alice@example.com" "wrong-password" _ hfind (by decide)
  ⟨hfind, h.1, h.2.1⟩

/-- C7, counterexample. In one and the same store, a login with an unknown identifier
returns `ErrUserNotFound` and a login with a known identifier and a wrong password
returns `ErrInvalidPassword`; the HTTP handler reports "user not found" for the first
and "invalid password" for the second. -/
theorem login_failures_differ :
    (aliceEngine.Login sampleBcrypt zeroRand 10 11 "s1" background
        "nobody@example.com" "wrong-password").1 = .error .ErrUserNotFound ∧
    (aliceEngine.Login sampleBcrypt zeroRand 10 11 "s1" background
        "alice@example.com" "wrong-password").1 = .error .ErrInvalidPassword ∧
    (AuthHandler.Login aliceEngine sampleBcrypt zeroRand 10 11 "s1" background "POST"
        (some { EmailOrUsername := "nobody@example.com",
                Password := "wrong-password" })).1.Error = "user not found" ∧
    (AuthHandler.Login aliceEngine sampleBcrypt zeroRand 10 11 "s1" background "POST"
        (some { EmailOrUsername := "alice@example.com",
                Password := "wrong-password" })).1.Error = "invalid password" ∧
    (aliceEngine.Login sampleBcrypt zeroRand 10 11 "s1" background
        "nobody@example.com" "wrong-password").1 ≠
      (aliceEngine.Login sampleBcrypt zeroRand 10 11 "s1" background
        "alice@example.com" "wrong-password").1 := by
  refine ⟨by decide, by decide, by decide, by decide, by decide⟩

/-- C7, amended. A failed `Login` tells which check failed: an identifier that no stored
user has as email or username gives `ErrUserNotFound`, a resolved identifier with a
password that does not verify gives `ErrInvalidPassword`; neither changes a store. The
HTTP handler answers both with status 401 and `Success = false`, with the messages
"user not found" and "invalid password". -/
theorem login_failures_distinguished (a : AuthUseCase) (bc : Bcrypt)
    (rand : RandReader) (now created : Time) (uuid : String) (ctx : Context)
    (unknown password1 known password2 : String) (u : User)
    (hnone : ∀ k v, a.userRepo.users.lookup k = some v →
      v.Email ≠ unknown ∧ v.Username ≠ unknown)
    (hfind : a.findUser ctx known = .ok u)
    (hpw : u.CheckPassword bc password2 = false) :
    a.Login bc rand now created uuid ctx unknown password1 = (.error .ErrUserNotFound, a) ∧
    a.Login bc rand now created uuid ctx known password2 = (.error .ErrInvalidPassword, a) ∧
    AuthHandler.Login a bc rand now created uuid ctx "POST"
        (some { EmailOrUsername := unknown, Password := password1 }) =
      ({ status := 401, Success := false, Error := "user not found", Data := none }, a) ∧
    AuthHandler.Login a bc rand now created uuid ctx "POST"
        (some { EmailOrUsername := known, Password := password2 }) =
      ({ status := 401, Success := false, Error := "invalid password", Data := none }, a) := by
  have h1 := a.Login_not_found bc rand now created uuid ctx unknown password1 _
    (a.findUser_none ctx unknown hnone)
  have h2 := a.Login_wrong_password bc rand now created uuid ctx known password2 u hfind hpw
  refine ⟨h1, h2, ?_, ?_⟩
  · simp [AuthHandler.Login, h1, Error.Error]
  · simp [AuthHandler.Login, h2, Error.Error]

theorem login_failures_distinguished_witness :
    (∀ k v, aliceEngine.userRepo.users.lookup k = some v →
      v.Email ≠ "nobody@example.com" ∧ v.Username ≠ "nobody@example.com") ∧
    aliceEngine.Login sampleBcrypt zeroRand 10 11 "s1" background
        "nobody@example.com" "wrong-password" = (.error .ErrUserNotFound, aliceEngine) ∧
    aliceEngine.Login sampleBcrypt zeroRand 10 11 "s1" background
        "alice@example.com" "wrong-password" = (.error .ErrInvalidPassword, aliceEngine) := by
  have hnone : ∀ k v, aliceEngine.userRepo.users.lookup k = some v →
      v.Email ≠ "nobody@example.com" ∧ v.Username ≠ "nobody@example.com" := by
    intro k v hl
    have hmem := (GoMap.mem_entries_iff _ k v).2 hl
    have hent : aliceEngine.userRepo.users.entries =
        [⟨"id1", aliceRecord⟩] := by decide
    rw [hent] at hmem
    simp only [List.mem_singleton, Sigma.mk.inj_iff] at hmem
    have hv := eq_of_heq hmem.2
    subst hv
    exact ⟨by decide, by decide⟩
  have h := login_failures_distinguished aliceEngine sampleBcrypt zeroRand 10 11 "s1"
    background "nobody@example.com" "wrong-password" "alice@example.com" "wrong-password"
    aliceRecord hnone (by decide) (by decide)
  exact ⟨hnone, h.1, h.2.1⟩

/-! ## Theorems: session validation and logout -/

theorem Session.IsExpired_iff (s : Session) (now : Time) :
    s.IsExpired now = true ↔ s.ExpiresAt < now := by
  simp [Session.IsExpired, Time.After]

/-- `ValidateSession` on a token under which nothing is stored. -/
theorem AuthUseCase.ValidateSession_absent (a : AuthUseCase) (now : Time) (ctx : Context)
    (token : String) (h : a.sessionRepo.sessions.lookup token = none) :
    a.ValidateSession now ctx token = (.error .ErrSessionNotFound, a) := by
  simp [AuthUseCase.ValidateSession, InMemorySessionRepository.GetByToken, h]

/-- `ValidateSession` on a stored session whose expiry has passed. -/
theorem AuthUseCase.ValidateSession_expired (a : AuthUseCase) (now : Time) (ctx : Context)
    (token : String) (s : Session) (h : a.sessionRepo.sessions.lookup token = some s)
    (hexp : s.ExpiresAt < now) :
    a.ValidateSession now ctx token =
      (.error .ErrSessionExpired,
       { a with sessionRepo := { sessions := a.sessionRepo.sessions.erase token } }) := by
  simp [AuthUseCase.ValidateSession, InMemorySessionRepository.GetByToken, h,
    (s.IsExpired_iff now).2 hexp, InMemorySessionRepository.Delete]

/-- `ValidateSession` on a stored session whose expiry has not passed. -/
theorem AuthUseCase.ValidateSession_live (a : AuthUseCase) (now : Time) (ctx : Context)
    (token : String) (s : Session) (h : a.sessionRepo.sessions.lookup token = some s)
    (hlive : ¬ s.ExpiresAt < now) :
    a.ValidateSession now ctx token = (.ok s, a) := by
  have : s.IsExpired now = false := by
    cases hb : s.IsExpired now with
    | false => rfl
    | true => exact absurd ((s.IsExpired_iff now).1 hb) hlive
  simp [AuthUseCase.ValidateSession, InMemorySessionRepository.GetByToken, h, this]

/-- C8. `ValidateSession` fails with `ErrSessionNotFound` when nothing is stored under the
token, fails with `ErrSessionExpired` when the stored session's `ExpiresAt` is before
`now`, and otherwise returns the stored session with no error and leaves both stores
unchanged. -/
theorem ValidateSession_outcomes (a : AuthUseCase) (now : Time) (ctx : Context)
    (token : String) :
    (a.sessionRepo.sessions.lookup token = none →
      a.ValidateSession now ctx token = (.error .ErrSessionNotFound, a)) ∧
    (∀ s, a.sessionRepo.sessions.lookup token = some s → s.ExpiresAt < now →
      (a.ValidateSession now ctx token).1 = .error .ErrSessionExpired) ∧
    (∀ s, a.sessionRepo.sessions.lookup token = some s → ¬ s.ExpiresAt < now →
      a.ValidateSession now ctx token = (.ok s, a)) := by
  refine ⟨a.ValidateSession_absent now ctx token, fun s h hexp => ?_,
    a.ValidateSession_live now ctx token⟩
  rw [a.ValidateSession_expired now ctx token s h hexp]

/-- C9. When a session `s` with `ExpiresAt` before `now` is stored under `s.Token`,
`ValidateSession` fails with `ErrSessionExpired`; afterwards nothing is stored under
`s.Token`, every other token keeps its session, the user store is unchanged, and a second
`ValidateSession` of the token, at any clock reading, fails with `ErrSessionNotFound`. -/
theorem ValidateSession_expired_removes (a : AuthUseCase) (now : Time) (ctx : Context)
    (s : Session) (hs : a.sessionRepo.sessions.lookup s.Token = some s)
    (hexp : s.ExpiresAt < now) :
    (a.ValidateSession now ctx s.Token).1 = .error .ErrSessionExpired ∧
    (a.ValidateSession now ctx s.Token).2.sessionRepo.sessions.lookup s.Token = none ∧
    (∀ t, t ≠ s.Token →
      (a.ValidateSession now ctx s.Token).2.sessionRepo.sessions.lookup t =
        a.sessionRepo.sessions.lookup t) ∧
    (a.ValidateSession now ctx s.Token).2.userRepo = a.userRepo ∧
    (∀ now2 ctx2,
      (a.ValidateSession now ctx s.Token).2.ValidateSession now2 ctx2 s.Token =
        (.error .ErrSessionNotFound, (a.ValidateSession now ctx s.Token).2)) := by
  rw [a.ValidateSession_expired now ctx s.Token s hs hexp]
  refine ⟨rfl, AList.lookup_erase _ _, fun t ht => AList.lookup_erase_ne ht, rfl,
    fun now2 ctx2 => ?_⟩
  exact AuthUseCase.ValidateSession_absent _ now2 ctx2 s.Token (AList.lookup_erase _ _)

theorem ValidateSession_expired_removes_witness :
    loggedInEngine.sessionRepo.sessions.lookup aliceSession.Token = some aliceSession ∧
    aliceSession.ExpiresAt < 86400000000011 ∧
    (loggedInEngine.ValidateSession 86400000000011 background aliceSession.Token).1 =
      .error .ErrSessionExpired ∧
    (loggedInEngine.ValidateSession 86400000000011 background
      aliceSession.Token).2.sessionRepo.sessions.lookup aliceSession.Token = none :=
  have hs : loggedInEngine.sessionRepo.sessions.lookup aliceSession.Token =
      some aliceSession := by decide
  have hexp : aliceSession.ExpiresAt < 86400000000011 := by decide
  have h := ValidateSession_expired_removes loggedInEngine 86400000000011 background
    aliceSession hs hexp
  ⟨hs, hexp, h.1, h.2.1⟩

theorem GoMap.erase_erase_self {V : Type} (m : GoMap V) (k : String) :
    (m.erase k).erase k = m.erase k := by
  apply AList.ext
  show List.kerase k (List.kerase k m.entries) = List.kerase k m.entries
  exact List.kerase_of_not_mem_keys (List.not_mem_keys_kerase k m.nodupKeys)

/-- C10. `Logout` returns no error whether or not a session is stored under the token;
afterwards `ValidateSession` of the token fails with `ErrSessionNotFound`, every other
token keeps its session, the user store is unchanged, and a second `Logout` of the token
returns no error and leaves the stores as the first one left them. -/
theorem Logout_contract (a : AuthUseCase) (ctx : Context) (token : String) :
    (a.Logout ctx token).1 = none ∧
    (∀ now ctx2, (a.Logout ctx token).2.ValidateSession now ctx2 token =
      (.error .ErrSessionNotFound, (a.Logout ctx token).2)) ∧
    (∀ t, t ≠ token →
      (a.Logout ctx token).2.sessionRepo.sessions.lookup t =
        a.sessionRepo.sessions.lookup t) ∧
    (a.Logout ctx token).2.userRepo = a.userRepo ∧
    (∀ ctx2, (a.Logout ctx token).2.Logout ctx2 token = (none, (a.Logout ctx token).2)) := by
  have hL : ∀ (b : AuthUseCase) (c : Context), b.Logout c token =
      (none, { b with sessionRepo := { sessions := b.sessionRepo.sessions.erase token } }) :=
    fun b c => rfl
  rw [hL a ctx]
  refine ⟨rfl, fun now ctx2 => ?_, fun t ht => AList.lookup_erase_ne ht, rfl, fun ctx2 => ?_⟩
  · exact AuthUseCase.ValidateSession_absent _ now ctx2 token (AList.lookup_erase _ _)
  · rw [hL]
    simp only [GoMap.erase_erase_self]

/-! ## Theorems: session lifetime -/

/-- What a successful `Login` did. -/
theorem AuthUseCase.Login_ok_inv (a : AuthUseCase) (bc : Bcrypt) (rand : RandReader)
    (now created : Time) (uuid : String) (ctx : Context) (emailOrUsername password : String)
    (s : Session) (a1 : AuthUseCase)
    (h : a.Login bc rand now created uuid ctx emailOrUsername password = (.ok s, a1)) :
    ∃ u b, a.findUser ctx emailOrUsername = .ok u ∧ u.CheckPassword bc password = true ∧
      rand 32 = .ok b ∧
      s = { ID := uuid, UserID := u.ID, Token := EncodeToString b,
            ExpiresAt := Time.Add now (24 * Hour), CreatedAt := created } ∧
      a1 = { a with sessionRepo :=
        { sessions := a.sessionRepo.sessions.insert (EncodeToString b) s } } := by
  cases hf : a.findUser ctx emailOrUsername with
  | error err =>
    rw [a.Login_not_found bc rand now created uuid ctx emailOrUsername password err hf] at h
    cases h
  | ok u =>
    cases hp : u.CheckPassword bc password with
    | false =>
      rw [a.Login_wrong_password bc rand now created uuid ctx emailOrUsername password u hf
        hp] at h
      cases h
    | true =>
      cases hr : rand 32 with
      | error err =>
        simp [AuthUseCase.Login, hf, hp, generateToken, hr] at h
      | ok b =>
        rw [a.Login_ok bc rand now created uuid ctx emailOrUsername password u b hf hp hr] at h
        cases h
        exact ⟨u, b, rfl, hp, rfl, rfl, rfl⟩

/-- C11. With the second clock reading not before the first, a successful `Login` stores
and returns a session whose `ExpiresAt` is the first reading plus 24 hours and whose
`CreatedAt` is the second reading; so `ExpiresAt - CreatedAt` is at most 24 hours and
falls short of it by the time between the readings. A `ValidateSession` of its token at
any reading not after `ExpiresAt` returns that session and changes nothing. -/
theorem Login_session_lifetime (a : AuthUseCase) (bc : Bcrypt) (rand : RandReader)
    (now created : Time) (uuid : String) (ctx : Context) (emailOrUsername password : String)
    (s : Session) (a1 : AuthUseCase)
    (hclock : now ≤ created)
    (h : a.Login bc rand now created uuid ctx emailOrUsername password = (.ok s, a1)) :
    s.ExpiresAt = now + 24 * Hour ∧
    s.CreatedAt = created ∧
    s.ExpiresAt - s.CreatedAt ≤ 24 * Hour ∧
    24 * Hour - (s.ExpiresAt - s.CreatedAt) = created - now ∧
    a1.sessionRepo.sessions.lookup s.Token = some s ∧
    (∀ t ctx1, t ≤ s.ExpiresAt → a1.ValidateSession t ctx1 s.Token = (.ok s, a1)) := by
  obtain ⟨u, b, _, _, _, hs, ha1⟩ :=
    a.Login_ok_inv bc rand now created uuid ctx emailOrUsername password s a1 h
  have hE : s.ExpiresAt = now + 24 * Hour := by rw [hs]; rfl
  have hC : s.CreatedAt = created := by rw [hs]
  have hT : s.Token = EncodeToString b := by rw [hs]
  have hl : a1.sessionRepo.sessions.lookup s.Token = some s := by
    rw [ha1, hT]; exact AList.lookup_insert _
  refine ⟨hE, hC, ?_, ?_, hl, fun t ctx1 ht => ?_⟩
  · rw [hE, hC]; linarith
  · rw [hE, hC]; ring
  · exact a1.ValidateSession_live t ctx1 s.Token s hl (not_lt.mpr ht)

theorem Login_session_lifetime_witness :
    (10 : Time) ≤ 11 ∧
    aliceEngine.Login sampleBcrypt zeroRand 10 11 "s1" background
        "alice@example.com" "correct-password" = (.ok aliceSession, loggedInEngine) ∧
    aliceSession.ExpiresAt = 10 + 24 * Hour ∧
    aliceSession.ExpiresAt - aliceSession.CreatedAt ≤ 24 * Hour ∧
    loggedInEngine.ValidateSession 86400000000010 background aliceSession.Token =
      (.ok aliceSession, loggedInEngine) :=
  have hlogin : aliceEngine.Login sampleBcrypt zeroRand 10 11 "s1" background
        "alice@example.com" "correct-password" = (.ok aliceSession, loggedInEngine) := by
    decide
  have h := Login_session_lifetime aliceEngine sampleBcrypt zeroRand 10 11 "s1" background
    "alice@example.com" "correct-password" aliceSession loggedInEngine (by decide) hlogin
  ⟨by decide, hlogin, h.1, h.2.2.1, h.2.2.2.2.2 86400000000010 background (by decide)⟩

/-! ## Theorems: bulk deletion of sessions -/

/-- A range-and-delete loop over any list of entries: a key is gone when the loop met it
with a value passing the test, and otherwise holds what it held before. -/
theorem GoMap.lookup_foldl_erase {V : Type} (p : String → V → Bool)
    (l : List (Sigma fun _ : String => V)) :
    ∀ (acc : GoMap V) (k : String),
      (l.foldl (fun acc e => if p e.1 e.2 then acc.erase e.1 else acc) acc).lookup k =
        if ∃ e ∈ l, e.1 = k ∧ p e.1 e.2 = true then none else acc.lookup k := by
  induction l with
  | nil => intro acc k; simp
  | cons e l ih =>
    intro acc k
    rw [List.foldl_cons, ih]
    by_cases h1 : ∃ e' ∈ l, e'.1 = k ∧ p e'.1 e'.2 = true
    · have h2 : ∃ e' ∈ e :: l, e'.1 = k ∧ p e'.1 e'.2 = true := by
        obtain ⟨e', hm, hk⟩ := h1
        exact ⟨e', List.mem_cons_of_mem _ hm, hk⟩
      rw [if_pos h1, if_pos h2]
    · rw [if_neg h1]
      by_cases hp : p e.1 e.2 = true
      · rw [if_pos hp]
        by_cases hk : e.1 = k
        · have h2 : ∃ e' ∈ e :: l, e'.1 = k ∧ p e'.1 e'.2 = true :=
            ⟨e, List.mem_cons_self _ _, hk, hp⟩
          rw [if_pos h2, ← hk, AList.lookup_erase]
        · have h2 : ¬ ∃ e' ∈ e :: l, e'.1 = k ∧ p e'.1 e'.2 = true := by
            rintro ⟨e', hm, hk', hp'⟩
            rcases List.mem_cons.1 hm with rfl | hm
            · exact hk hk'
            · exact h1 ⟨e', hm, hk', hp'⟩
          rw [if_neg h2, AList.lookup_erase_ne (fun h => hk h.symm)]
      · rw [if_neg hp]
        have h2 : ¬ ∃ e' ∈ e :: l, e'.1 = k ∧ p e'.1 e'.2 = true := by
          rintro ⟨e', hm, hk', hp'⟩
          rcases List.mem_cons.1 hm with rfl | hm
          · exact hp hp'
          · exact h1 ⟨e', hm, hk', hp'⟩
        rw [if_neg h2]

/-- After the loop a key holds what it held before when that value fails the test, and
nothing otherwise. -/
theorem GoMap.lookup_rangeDelete {V : Type} (m : GoMap V) (p : String → V → Bool)
    (k : String) :
    (m.rangeDelete p).lookup k = (m.lookup k).filter (fun v => !p k v) := by
  unfold GoMap.rangeDelete
  rw [GoMap.lookup_foldl_erase]
  cases hl : m.lookup k with
  | none =>
    have : ¬ ∃ e ∈ m.entries, e.1 = k ∧ p e.1 e.2 = true := by
      rintro ⟨⟨k', v⟩, hm, hk, _⟩
      simp only at hk
      subst hk
      rw [(GoMap.mem_entries_iff m k' v).1 hm] at hl
      cases hl
    rw [if_neg this]; rfl
  | some v =>
    by_cases hp : p k v = true
    · have : ∃ e ∈ m.entries, e.1 = k ∧ p e.1 e.2 = true :=
        ⟨⟨k, v⟩, (GoMap.mem_entries_iff m k v).2 hl, rfl, hp⟩
      rw [if_pos this]
      simp [Option.filter, hp]
    · have : ¬ ∃ e ∈ m.entries, e.1 = k ∧ p e.1 e.2 = true := by
        rintro ⟨⟨k', v'⟩, hm, hk, hp'⟩
        simp only at hk hp'
        subst hk
        rw [(GoMap.mem_entries_iff m k' v').1 hm] at hl
        cases hl
        exact hp hp'
      rw [if_neg this]
      simp [Option.filter, hp]

/-- A loop that meets no value passing the test leaves the map as it is. -/
theorem GoMap.foldl_erase_id {V : Type} (p : String → V → Bool)
    (l : List (Sigma fun _ : String => V)) (h : ∀ e ∈ l, p e.1 e.2 = false) :
    ∀ acc : GoMap V,
      l.foldl (fun acc e => if p e.1 e.2 then acc.erase e.1 else acc) acc = acc := by
  induction l with
  | nil => intro acc; rfl
  | cons e l ih =>
    intro acc
    rw [List.foldl_cons, h e (List.mem_cons_self _ _)]
    exact ih (fun e' hm => h e' (List.mem_cons_of_mem _ hm)) acc

/-- Running the loop a second time changes nothing. -/
theorem GoMap.rangeDelete_idem {V : Type} (m : GoMap V) (p : String → V → Bool) :
    (m.rangeDelete p).rangeDelete p = m.rangeDelete p := by
  refine GoMap.foldl_erase_id p _ (fun e hm => ?_) _
  obtain ⟨k, v⟩ := e
  have hl := (GoMap.mem_entries_iff _ k v).1 hm
  rw [GoMap.lookup_rangeDelete] at hl
  cases hm' : m.lookup k with
  | none => rw [hm'] at hl; cases hl
  | some w =>
    rw [hm'] at hl
    cases hp : p k w with
    | true => simp [Option.filter, hp] at hl
    | false =>
      simp [Option.filter, hp] at hl
      subst hl
      exact hp

/-- C12. `DeleteExpired` returns no error; a stored session is removed when its
`ExpiresAt` is strictly before `now` and is kept unchanged otherwise, in particular when
`ExpiresAt = now`; a token that held nothing holds nothing afterwards. -/
theorem DeleteExpired_contract (r : InMemorySessionRepository) (now : Time) (ctx : Context) :
    (r.DeleteExpired now ctx).1 = none ∧
    (∀ t s, r.sessions.lookup t = some s → s.ExpiresAt < now →
      (r.DeleteExpired now ctx).2.sessions.lookup t = none) ∧
    (∀ t s, r.sessions.lookup t = some s → ¬ s.ExpiresAt < now →
      (r.DeleteExpired now ctx).2.sessions.lookup t = some s) ∧
    (∀ t s, r.sessions.lookup t = some s → s.ExpiresAt = now →
      (r.DeleteExpired now ctx).2.sessions.lookup t = some s) ∧
    (∀ t, r.sessions.lookup t = none →
      (r.DeleteExpired now ctx).2.sessions.lookup t = none) := by
  have key : ∀ t, (r.DeleteExpired now ctx).2.sessions.lookup t =
      (r.sessions.lookup t).filter (fun s => !Time.After now s.ExpiresAt) := fun t =>
    GoMap.lookup_rangeDelete r.sessions _ t
  have hlive : ∀ t s, r.sessions.lookup t = some s → ¬ s.ExpiresAt < now →
      (r.DeleteExpired now ctx).2.sessions.lookup t = some s := by
    intro t s hl hn
    rw [key, hl]
    simp [Option.filter, Time.After, hn]
  refine ⟨rfl, fun t s hl hexp => ?_, hlive,
    fun t s hl he => hlive t s hl (by rw [he]; exact lt_irrefl now), fun t hl => ?_⟩
  · rw [key, hl]
    simp [Option.filter, Time.After, hexp]
  · rw [key, hl]; rfl

/-- C13. `DeleteByUserID` returns no error; afterwards `GetByUserID` of that user is
empty, every session of another user is still stored unchanged under its token, nothing
else is stored, and a second `DeleteByUserID` of the user leaves the store as it is. -/
theorem DeleteByUserID_contract (r : InMemorySessionRepository) (ctx : Context)
    (userID : String) :
    (r.DeleteByUserID ctx userID).1 = none ∧
    (∀ ctx1, (r.DeleteByUserID ctx userID).2.GetByUserID ctx1 userID = .ok []) ∧
    (∀ t s, r.sessions.lookup t = some s → s.UserID ≠ userID →
      (r.DeleteByUserID ctx userID).2.sessions.lookup t = some s) ∧
    (∀ t s, (r.DeleteByUserID ctx userID).2.sessions.lookup t = some s →
      r.sessions.lookup t = some s ∧ s.UserID ≠ userID) ∧
    (∀ ctx1, (r.DeleteByUserID ctx userID).2.DeleteByUserID ctx1 userID =
      (none, (r.DeleteByUserID ctx userID).2)) := by
  have key : ∀ t, (r.DeleteByUserID ctx userID).2.sessions.lookup t =
      (r.sessions.lookup t).filter (fun s => !(s.UserID == userID)) := fun t =>
    GoMap.lookup_rangeDelete r.sessions _ t
  have hback : ∀ t s, (r.DeleteByUserID ctx userID).2.sessions.lookup t = some s →
      r.sessions.lookup t = some s ∧ s.UserID ≠ userID := by
    intro t s hl
    rw [key] at hl
    cases hr : r.sessions.lookup t with
    | none => rw [hr] at hl; cases hl
    | some w =>
      rw [hr] at hl
      by_cases hu : w.UserID = userID
      · simp [Option.filter, hu] at hl
      · simp [Option.filter, hu] at hl
        subst hl
        exact ⟨rfl, hu⟩
  refine ⟨rfl, fun ctx1 => ?_, fun t s hl hne => ?_, hback, fun ctx1 => ?_⟩
  · unfold InMemorySessionRepository.GetByUserID
    have : (r.DeleteByUserID ctx userID).2.sessions.entries.filter
        (fun e => e.2.UserID == userID) = [] := by
      rw [List.filter_eq_nil_iff]
      rintro ⟨t, s⟩ hm
      have := (hback t s ((GoMap.mem_entries_iff _ t s).1 hm)).2
      simpa using this
    rw [this]; rfl
  · rw [key, hl]
    simp [Option.filter, hne]
  · unfold InMemorySessionRepository.DeleteByUserID
    simp only [GoMap.rangeDelete_idem]

/-! ## Theorems: session creation, user update and user deletion -/

/-- C14. `Create` on the session store never fails, also when the token is already a key;
afterwards `GetByToken` of the session's token returns the new session, `GetByToken` of any
other token returns what it returned before, and in every store `GetByToken` fails with
`ErrSessionNotFound` exactly for the tokens under which nothing is stored. -/
theorem session_Create_contract (r : InMemorySessionRepository) (ctx : Context)
    (s : Session) :
    (r.Create ctx s).1 = none ∧
    (∀ ctx1, (r.Create ctx s).2.GetByToken ctx1 s.Token = .ok s) ∧
    (∀ ctx1 t, t ≠ s.Token → (r.Create ctx s).2.GetByToken ctx1 t = r.GetByToken ctx1 t) ∧
    (∀ (q : InMemorySessionRepository) ctx1 t,
      q.GetByToken ctx1 t = .error .ErrSessionNotFound ↔ q.sessions.lookup t = none) := by
  refine ⟨rfl, fun ctx1 => ?_, fun ctx1 t ht => ?_, fun q ctx1 t => ?_⟩
  · simp [InMemorySessionRepository.GetByToken, InMemorySessionRepository.Create,
      AList.lookup_insert]
  · simp [InMemorySessionRepository.GetByToken, InMemorySessionRepository.Create,
      AList.lookup_insert_ne ht]
  · unfold InMemorySessionRepository.GetByToken
    cases q.sessions.lookup t <;> simp

theorem InMemoryUserRepository.Update_absent (r : InMemoryUserRepository) (ctx : Context)
    (u : User) (h : r.users.lookup u.ID = none) :
    r.Update ctx u = (some .ErrUserNotFound, r) := by
  simp [InMemoryUserRepository.Update, h]

theorem InMemoryUserRepository.Update_present (r : InMemoryUserRepository) (ctx : Context)
    (u : User) (h : r.users.lookup u.ID ≠ none) :
    r.Update ctx u = (none, { users := r.users.insert u.ID u }) := by
  unfold InMemoryUserRepository.Update
  cases hl : r.users.lookup u.ID with
  | none => exact absurd hl h
  | some w => rfl

/-- C16. `Update` fails with `ErrUserNotFound` and leaves the store unchanged when nothing
is stored under `u.ID`; otherwise it returns `nil`, the record under `u.ID` becomes `u`,
the same ids are stored as before and every other id keeps its record. -/
theorem Update_contract (r : InMemoryUserRepository) (ctx : Context) (u : User) :
    (r.users.lookup u.ID = none → r.Update ctx u = (some .ErrUserNotFound, r)) ∧
    (r.users.lookup u.ID ≠ none →
      (r.Update ctx u).1 = none ∧
      (r.Update ctx u).2.users.lookup u.ID = some u ∧
      (∀ k, (r.Update ctx u).2.users.lookup k ≠ none ↔ r.users.lookup k ≠ none) ∧
      (∀ k, k ≠ u.ID → (r.Update ctx u).2.users.lookup k = r.users.lookup k)) := by
  refine ⟨r.Update_absent ctx u, fun h => ?_⟩
  rw [r.Update_present ctx u h]
  refine ⟨rfl, AList.lookup_insert _, fun k => ?_, fun k hk => AList.lookup_insert_ne hk⟩
  by_cases hk : k = u.ID
  · subst hk
    simp [AList.lookup_insert, h]
  · simp [AList.lookup_insert_ne hk]

/-- C17, counterexample. With Alice registered and logged in, `DeleteUser` of her id
succeeds and removes her record, and her session is still stored afterwards. -/
theorem DeleteUser_keeps_sessions :
    (Service.DeleteUser { userRepo := loggedInEngine.userRepo,
                          sessionRepo := loggedInEngine.sessionRepo } background "id1").1 =
      none ∧
    (Service.DeleteUser { userRepo := loggedInEngine.userRepo,
                          sessionRepo := loggedInEngine.sessionRepo } background
      "id1").2.userRepo.users.lookup "id1" = none ∧
    (Service.DeleteUser { userRepo := loggedInEngine.userRepo,
                          sessionRepo := loggedInEngine.sessionRepo } background
      "id1").2.sessionRepo.sessions.lookup aliceSession.Token = some aliceSession ∧
    aliceSession.UserID = "id1" := by
  refine ⟨by decide, by decide, by decide, by decide⟩

theorem Service.DeleteUser_eq (sv : Service) (ctx : Context) (id : String) :
    sv.DeleteUser ctx id =
      ((sv.userRepo.Delete ctx id).1, { sv with userRepo := (sv.userRepo.Delete ctx id).2 }) :=
  rfl

/-- C17, amended. `DeleteUser` never changes the session store, so the sessions of the
deleted user stay stored. It fails with `ErrUserNotFound` and changes nothing when the id
is absent; otherwise it returns `nil`, removes the record of that id and leaves every
other record unchanged. -/
theorem DeleteUser_contract (sv : Service) (ctx : Context) (id : String) :
    (sv.DeleteUser ctx id).2.sessionRepo = sv.sessionRepo ∧
    (sv.userRepo.users.lookup id = none →
      sv.DeleteUser ctx id = (some .ErrUserNotFound, sv)) ∧
    (sv.userRepo.users.lookup id ≠ none →
      (sv.DeleteUser ctx id).1 = none ∧
      (sv.DeleteUser ctx id).2.userRepo.users.lookup id = none ∧
      (∀ k, k ≠ id →
        (sv.DeleteUser ctx id).2.userRepo.users.lookup k = sv.userRepo.users.lookup k)) := by
  rw [sv.DeleteUser_eq ctx id]
  refine ⟨rfl, fun h => ?_, fun h => ?_⟩
  · simp [InMemoryUserRepository.Delete, h]
  · have hd : sv.userRepo.Delete ctx id = (none, { users := sv.userRepo.users.erase id }) := by
      unfold InMemoryUserRepository.Delete
      cases hl : sv.userRepo.users.lookup id with
      | none => exact absurd hl h
      | some w => rfl
    rw [hd]
    exact ⟨rfl, AList.lookup_erase _ _, fun k hk => AList.lookup_erase_ne hk⟩

/-! ## Theorems: cancellation -/

/-- C19, counterexample. With an already cancelled context, `Register` succeeds and
stores the user, `Login` succeeds and stores a session, `ValidateSession` returns the
session, and `Logout` returns no error and removes it. -/
theorem cancelled_context_is_ignored :
    (emptyEngine.Register sampleBcrypt 5 "id1" { canceled := true }
        "alice@example.com" "alice" "correct-password").1 = .ok aliceRecord ∧
    (emptyEngine.Register sampleBcrypt 5 "id1" { canceled := true }
        "alice@example.com" "alice" "correct-password").2.userRepo.users.lookup "id1" =
      some aliceRecord ∧
    (aliceEngine.Login sampleBcrypt zeroRand 10 11 "s1" { canceled := true }
        "alice@example.com" "correct-password").1 = .ok aliceSession ∧
    (aliceEngine.Login sampleBcrypt zeroRand 10 11 "s1" { canceled := true }
        "alice@example.com" "correct-password").2.sessionRepo.sessions.lookup
        aliceSession.Token = some aliceSession ∧
    (loggedInEngine.ValidateSession 12 { canceled := true } aliceSession.Token).1 =
      .ok aliceSession ∧
    (loggedInEngine.Logout { canceled := true } aliceSession.Token).1 = none ∧
    (loggedInEngine.Logout { canceled := true }
        aliceSession.Token).2.sessionRepo.sessions.lookup aliceSession.Token = none := by
  refine ⟨by decide, by decide, by decide, by decide, by decide, by decide, by decide⟩

/-- C19, amended. No engine operation inspects its context: `Register`, `Login`,
`Logout` and `ValidateSession` return the same result and the same stores for any two
contexts, cancelled or not. -/
theorem context_is_never_inspected (a : AuthUseCase) (bc : Bcrypt) (rand : RandReader)
    (now created : Time) (uuid : String) (ctx ctx1 : Context)
    (email username password token : String) :
    a.Register bc now uuid ctx email username password =
      a.Register bc now uuid ctx1 email username password ∧
    a.Login bc rand now created uuid ctx email password =
      a.Login bc rand now created uuid ctx1 email password ∧
    a.Logout ctx token = a.Logout ctx1 token ∧
    a.ValidateSession now ctx token = a.ValidateSession now ctx1 token :=
  ⟨rfl, rfl, rfl, rfl⟩

/-! ## Theorems: pagination -/

theorem wrapInt_of_IsGoInt (x : Int) (h : IsGoInt x) : wrapInt x = x := by
  unfold IsGoInt at h
  unfold wrapInt
  omega

/-- Without overflow in `start + limit`, `List` returns the page that starts at `offset`
and holds at most `limit` users. -/
theorem List_page (r : InMemoryUserRepository) (ctx : Context) (offset limit : Int)
    (ho : 0 ≤ offset) (hl : 0 < limit) (hsum : offset + limit ≤ maxInt) :
    r.List ctx offset limit =
      .returns (((r.users.entries.map (fun e => e.2)).drop offset.toNat).take limit.toNat,
        none) := by
  unfold maxInt at hsum
  unfold InMemoryUserRepository.List
  simp only
  generalize r.users.entries.map (fun e => e.2) = users
  by_cases h1 : offset > (users.length : Int)
  · rw [if_pos h1]
    have : users.drop offset.toNat = [] := List.drop_of_length_le (by omega)
    rw [this, List.take_nil]
  · rw [if_neg h1]
    rw [wrapInt_of_IsGoInt (offset + limit) (by unfold IsGoInt; omega)]
    by_cases h2 : offset + limit > (users.length : Int)
    · rw [if_pos h2]
      have hs : goSlice users offset (users.length : Int) =
          .returns ((users.drop offset.toNat).take ((users.length : Int) - offset).toNat) := by
        unfold goSlice
        rw [if_pos ⟨ho, by omega, le_refl _⟩]
      rw [hs]
      simp only
      have e1 : (users.drop offset.toNat).take ((users.length : Int) - offset).toNat =
          users.drop offset.toNat :=
        List.take_of_length_le (by rw [List.length_drop]; omega)
      have e2 : (users.drop offset.toNat).take limit.toNat = users.drop offset.toNat :=
        List.take_of_length_le (by rw [List.length_drop]; omega)
      rw [e1, e2]
    · rw [if_neg h2]
      have hs : goSlice users offset (offset + limit) =
          .returns ((users.drop offset.toNat).take (offset + limit - offset).toNat) := by
        unfold goSlice
        rw [if_pos ⟨ho, by omega, by omega⟩]
      rw [hs]
      simp only
      have : offset + limit - offset = limit := by ring
      rw [this]

/-- The page that starts at `offset` and holds at most `limit` users has
`min limit (n - offset)` elements, none when `offset` exceeds `n`, each of them stored. -/
theorem page_facts (r : InMemoryUserRepository) (offset limit : Int) (ho : 0 ≤ offset)
    (hl : 0 < limit) :
    ((((r.users.entries.map (fun e => e.2)).drop offset.toNat).take limit.toNat).length : Int)
        = (if offset ≤ (r.users.entries.length : Int)
            then min limit ((r.users.entries.length : Int) - offset) else 0) ∧
    ∀ u ∈ ((r.users.entries.map (fun e => e.2)).drop offset.toNat).take limit.toNat,
      ∃ k, r.users.lookup k = some u := by
  constructor
  · rw [List.length_take, List.length_drop, List.length_map]
    split_ifs with h <;> omega
  · intro u hu
    have h1 := List.mem_of_mem_drop (List.mem_of_mem_take hu)
    obtain ⟨⟨k, v⟩, hm, hv⟩ := List.mem_map.1 h1
    simp only at hv
    subst hv
    exact ⟨k, (GoMap.mem_entries_iff r.users k v).1 hm⟩
/-- C15, failing input. On a store holding one user, `List(1, 9223372036854775807)`
has `offset >= 0` and `limit > 0`, yet `start + limit` overflows to a negative `end`,
the clamp to the record count does not apply, and the slice expression panics. -/
theorem List_panics_on_overflow :
    IsGoInt 1 ∧ IsGoInt 9223372036854775807 ∧
    (NewInMemoryUserRepository.run background [UserOp.Create alice]).users.entries.length
      = 1 ∧
    (NewInMemoryUserRepository.run background [UserOp.Create alice]).List background 1
      9223372036854775807 = .panics := by
  refine ⟨by decide, by decide, by decide, by decide⟩

/-! ## Theorems: token generation -/

set_option maxRecDepth 100000 in
theorem decode_encodeURLChar_fin : ∀ i : Fin 64, decodeURLChar (encodeURLChar i.val) = i.val := by
  decide

theorem decode_encodeURLChar (n : Nat) : decodeURLChar (encodeURLChar n) = n % 64 := by
  have h := decode_encodeURLChar_fin ⟨n % 64, Nat.mod_lt _ (by decide)⟩
  simp only at h
  have e : encodeURLChar (n % 64) = encodeURLChar n := by
    unfold encodeURLChar; rw [Nat.mod_mod]
  rw [e] at h
  exact h

set_option maxRecDepth 100000 in
theorem encodeURLChar_fin_facts : ∀ i : Fin 64,
    encodeURLChar i.val ∈ encodeURL ∧ encodeURLChar i.val ≠ '=' ∧
    ((encodeURLChar i.val).isAlphanum = true ∨ encodeURLChar i.val = '-' ∨
      encodeURLChar i.val = '_') := by
  decide

theorem encodeURLChar_facts (n : Nat) :
    encodeURLChar n ∈ encodeURL ∧ encodeURLChar n ≠ '=' ∧
    ((encodeURLChar n).isAlphanum = true ∨ encodeURLChar n = '-' ∨ encodeURLChar n = '_') := by
  have h := encodeURLChar_fin_facts ⟨n % 64, Nat.mod_lt _ (by decide)⟩
  simp only at h
  have e : encodeURLChar (n % 64) = encodeURLChar n := by
    unfold encodeURLChar; rw [Nat.mod_mod]
  rw [e] at h
  exact h

theorem toByte_eq (n : Nat) (a : Byte) (h : n % 256 = a.val) : toByte n = a :=
  Fin.ext h

theorem base64Decode_encode : ∀ l : List Byte, base64Decode (base64Encode l) = l
  | a :: b :: c :: rest => by
    have ih := base64Decode_encode rest
    have ha := a.isLt
    have hb := b.isLt
    have hc := c.isLt
    simp only [base64Encode, base64Decode]
    rw [if_neg (encodeURLChar_facts _).2.1, if_neg (encodeURLChar_facts _).2.1]
    simp only [decode_encodeURLChar]
    rw [ih]
    congr 1
    · exact toByte_eq _ _ (by omega)
    · congr 1
      · exact toByte_eq _ _ (by omega)
      · congr 1
        exact toByte_eq _ _ (by omega)
  | [a, b] => by
    have ha := a.isLt
    have hb := b.isLt
    simp only [base64Encode, base64Decode]
    rw [if_neg (encodeURLChar_facts _).2.1, if_pos trivial]
    simp only [decode_encodeURLChar]
    congr 1
    · exact toByte_eq _ _ (by omega)
    · congr 1
      exact toByte_eq _ _ (by omega)
  | [a] => by
    have ha := a.isLt
    simp only [base64Encode, base64Decode]
    rw [if_pos trivial]
    simp only [decode_encodeURLChar]
    congr 1
    exact toByte_eq _ _ (by omega)
  | [] => by simp [base64Encode, base64Decode]

theorem base64Encode_injective (l1 l2 : List Byte) (h : base64Encode l1 = base64Encode l2) :
    l1 = l2 := by
  rw [← base64Decode_encode l1, ← base64Decode_encode l2, h]

theorem base64Encode_length : ∀ l : List Byte,
    (base64Encode l).length = 4 * ((l.length + 2) / 3)
  | a :: b :: c :: rest => by
    have ih := base64Encode_length rest
    simp only [base64Encode, List.length_cons, ih]
    omega
  | [a, b] => by simp [base64Encode]
  | [a] => by simp [base64Encode]
  | [] => by simp [base64Encode]

/-- The encoding of a list whose length leaves remainder two is a run of alphabet
characters followed by one padding character. -/
theorem base64Encode_shape : ∀ l : List Byte, l.length % 3 = 2 →
    ∃ body, base64Encode l = body ++ ['='] ∧
      ∀ c ∈ body, c ∈ encodeURL ∧ (c.isAlphanum = true ∨ c = '-' ∨ c = '_')
  | a :: b :: c :: rest, h => by
    have hr : rest.length % 3 = 2 := by
      simp only [List.length_cons] at h; omega
    obtain ⟨body, hb, hall⟩ := base64Encode_shape rest hr
    refine ⟨encodeURLChar ((a.val * 65536 + b.val * 256 + c.val) / 262144) ::
      encodeURLChar ((a.val * 65536 + b.val * 256 + c.val) / 4096) ::
      encodeURLChar ((a.val * 65536 + b.val * 256 + c.val) / 64) ::
      encodeURLChar (a.val * 65536 + b.val * 256 + c.val) :: body,
      by simp only [base64Encode, hb, List.cons_append], ?_⟩
    intro x hx
    simp only [List.mem_cons] at hx
    rcases hx with rfl | rfl | rfl | rfl | hx
    · exact ⟨(encodeURLChar_facts _).1, (encodeURLChar_facts _).2.2⟩
    · exact ⟨(encodeURLChar_facts _).1, (encodeURLChar_facts _).2.2⟩
    · exact ⟨(encodeURLChar_facts _).1, (encodeURLChar_facts _).2.2⟩
    · exact ⟨(encodeURLChar_facts _).1, (encodeURLChar_facts _).2.2⟩
    · exact hall x hx
  | [a, b], _ => by
    refine ⟨[encodeURLChar ((a.val * 65536 + b.val * 256) / 262144),
      encodeURLChar ((a.val * 65536 + b.val * 256) / 4096),
      encodeURLChar ((a.val * 65536 + b.val * 256) / 64)],
      by simp only [base64Encode, List.cons_append, List.nil_append], ?_⟩
    intro x hx
    simp only [List.mem_cons, List.mem_singleton, List.not_mem_nil, or_false] at hx
    rcases hx with rfl | rfl | rfl
    · exact ⟨(encodeURLChar_facts _).1, (encodeURLChar_facts _).2.2⟩
    · exact ⟨(encodeURLChar_facts _).1, (encodeURLChar_facts _).2.2⟩
    · exact ⟨(encodeURLChar_facts _).1, (encodeURLChar_facts _).2.2⟩
  | [a], h => by simp at h
  | [], h => by simp at h

/-- C18, counterexample. For the 32 zero bytes the token is 43 times `A` followed by the
padding character `=`, which is not a character of the URL-safe alphabet. -/
theorem token_ends_with_padding :
    zeroRand 32 = .ok (List.replicate 32 0) ∧
    (List.replicate 32 (0 : Byte)).length = 32 ∧
    generateToken zeroRand = .ok "AAAAAAAAAAAAAAAAAAAAAAAAAAAAAAAAAAAAAAAAAAA=" ∧
    "AAAAAAAAAAAAAAAAAAAAAAAAAAAAAAAAAAAAAAAAAAA=".data.getLast? = some '=' ∧
    '=' ∉ encodeURL ∧
    ¬ ('='.isAlphanum = true ∨ '=' = '-' ∨ '=' = '_') := by
  refine ⟨rfl, by decide, by decide, by decide, by decide, by decide⟩

/-- C18, amended. For 32 bytes `b` delivered by the random source, `generateToken`
returns the base64 URL encoding of `b`: a string of 44 characters, of which the first 43
belong to the URL-safe alphabet (letters, digits, `-`, `_`) and the last is the padding
character `=`; and no other byte string has the same encoding. -/
theorem generateToken_contract (rand : RandReader) (b : List Byte)
    (hrand : rand 32 = .ok b) (hlen : b.length = 32) :
    generateToken rand = .ok (EncodeToString b) ∧
    (EncodeToString b).length = 44 ∧
    (∃ body, (EncodeToString b).data = body ++ ['='] ∧ body.length = 43 ∧
      ∀ c ∈ body, c ∈ encodeURL ∧ (c.isAlphanum = true ∨ c = '-' ∨ c = '_')) ∧
    (∀ b1 : List Byte, EncodeToString b1 = EncodeToString b → b1 = b) := by
  have hl : (base64Encode b).length = 44 := by
    rw [base64Encode_length, hlen]
  refine ⟨by simp [generateToken, hrand], ?_, ?_, fun b1 h => ?_⟩
  · simpa [EncodeToString] using hl
  · obtain ⟨body, hb, hall⟩ := base64Encode_shape b (by rw [hlen])
    refine ⟨body, hb, ?_, hall⟩
    have := hl
    rw [hb, List.length_append] at this
    simpa using this
  · apply base64Encode_injective
    have := congrArg String.data h
    simpa [EncodeToString] using this

theorem generateToken_contract_witness :
    zeroRand 32 = .ok (List.replicate 32 0) ∧
    (List.replicate 32 (0 : Byte)).length = 32 ∧
    generateToken zeroRand = .ok (EncodeToString (List.replicate 32 0)) ∧
    (EncodeToString (List.replicate 32 0)).length = 44 :=
  have h := generateToken_contract zeroRand (List.replicate 32 0) rfl (by decide)
  ⟨rfl, by decide, h.1, h.2.1⟩

/-! ## Theorems: concurrent registrations -/

/-- One call scheduled three times in a row, alone on the store, is `Register`. -/
theorem Registrations.run_alone (a : AuthUseCase) (bc : Bcrypt) (ctx : Context)
    (calls : Nat → RegisterCall) (i : Nat) :
    ((Registrations.start a.userRepo).run bc ctx calls [i, i, i]).phase i =
      .finished (a.Register bc (calls i).now (calls i).uuid ctx (calls i).email
        (calls i).username (calls i).password).1 ∧
    ((Registrations.start a.userRepo).run bc ctx calls [i, i, i]).store =
      (a.Register bc (calls i).now (calls i).uuid ctx (calls i).email
        (calls i).username (calls i).password).2.userRepo ∧
    (a.Register bc (calls i).now (calls i).uuid ctx (calls i).email
        (calls i).username (calls i).password).2.sessionRepo = a.sessionRepo := by
  simp only [Registrations.run, List.foldl, Registrations.step, Registrations.start,
    if_true, AuthUseCase.Register]
  cases h1 : a.userRepo.GetByEmail ctx (calls i).email with
  | ok v => simp [RegisterCall.step, h1]
  | error err =>
    cases h2 : a.userRepo.GetByUsername ctx (calls i).username with
    | ok v => simp [RegisterCall.step, h1, h2]
    | error err2 =>
      cases h3 : NewUser bc (calls i).now (calls i).email (calls i).username
          (calls i).password with
      | error err3 => simp [RegisterCall.step, h1, h2, h3]
      | ok u =>
        rcases h4 : a.userRepo.Create ctx { u with ID := (calls i).uuid } with ⟨_ | err4, repo⟩
        · simp [RegisterCall.step, h1, h2, h3, h4]
        · simp [RegisterCall.step, h1, h2, h3, h4]

theorem RegisterPhase.rank_le (ph : RegisterPhase) : ph.rank ≤ 3 := by
  cases ph <;> simp [RegisterPhase.rank]

theorem RegisterPhase.finished_of_rank (ph : RegisterPhase) (h : 3 ≤ ph.rank) :
    ∃ result, ph = .finished result := by
  cases ph with
  | finished result => exact ⟨result, rfl⟩
  | lookupEmail => simp [RegisterPhase.rank] at h
  | lookupUsername => simp [RegisterPhase.rank] at h
  | create u => simp [RegisterPhase.rank] at h

/-- A stretch takes a call one call on the store further, until it has returned. -/
theorem RegisterCall.rank_step (c : RegisterCall) (bc : Bcrypt) (ctx : Context)
    (r : InMemoryUserRepository) (ph : RegisterPhase) :
    min 3 (ph.rank + 1) ≤ (c.step bc ctx r ph).1.rank := by
  cases ph with
  | lookupEmail =>
    unfold RegisterCall.step
    cases r.GetByEmail ctx c.email <;> simp [RegisterPhase.rank]
  | lookupUsername =>
    unfold RegisterCall.step
    cases r.GetByUsername ctx c.username with
    | ok v => simp [RegisterPhase.rank]
    | error err =>
      cases NewUser bc c.now c.email c.username c.password <;> simp [RegisterPhase.rank]
  | create u =>
    unfold RegisterCall.step
    rcases h : r.Create ctx u with ⟨_ | err, repo⟩ <;> simp [h, RegisterPhase.rank]
  | finished result => simp [RegisterCall.step, RegisterPhase.rank]

/-- A stretch of another call leaves a call where it stands. -/
theorem Registrations.step_phase_ne (bc : Bcrypt) (ctx : Context)
    (calls : Nat → RegisterCall) (s : Registrations) (i j : Nat) (h : j ≠ i) :
    (s.step bc ctx calls i).phase j = s.phase j := by
  simp [Registrations.step, h]

theorem Registrations.step_phase_self (bc : Bcrypt) (ctx : Context)
    (calls : Nat → RegisterCall) (s : Registrations) (i : Nat) :
    (s.step bc ctx calls i).phase i = ((calls i).step bc ctx s.store (s.phase i)).1 := by
  simp [Registrations.step]

/-- After a schedule, a call has as many of its calls on the store behind it as the
schedule gave it stretches, up to the three it makes. -/
theorem Registrations.rank_run (bc : Bcrypt) (ctx : Context) (calls : Nat → RegisterCall)
    (schedule : List Nat) : ∀ (s : Registrations) (i : Nat),
    min 3 ((s.phase i).rank + schedule.count i) ≤
      ((s.run bc ctx calls schedule).phase i).rank := by
  induction schedule with
  | nil => intro s i; simp [Registrations.run]
  | cons j rest ih =>
    intro s i
    have h := ih (s.step bc ctx calls j) i
    have hrun : s.run bc ctx calls (j :: rest) =
        (s.step bc ctx calls j).run bc ctx calls rest := rfl
    rw [hrun]
    by_cases hji : j = i
    · subst hji
      have h1 := (calls j).rank_step bc ctx s.store (s.phase j)
      rw [← s.step_phase_self bc ctx calls j] at h1
      rw [List.count_cons_self]
      omega
    · have hne : i ≠ j := fun h => hji h.symm
      rw [s.step_phase_ne bc ctx calls j i hne] at h
      rw [List.count_cons_of_ne hne]
      exact h

/-- A schedule that gives each call three stretches lets every call return. -/
theorem Registrations.complete_of_three (bc : Bcrypt) (ctx : Context)
    (calls : Nat → RegisterCall) (s : Registrations) (schedule : List Nat) (n : Nat)
    (h : ∀ i, i < n → 3 ≤ schedule.count i) :
    (s.run bc ctx calls schedule).Complete n := by
  intro i hi
  apply RegisterPhase.finished_of_rank
  have h1 := Registrations.rank_run bc ctx calls schedule s i
  have h2 := h i hi
  omega

theorem Registrations.Inv_start (calls : Nat → RegisterCall) (n : Nat) (e : String)
    (r : InMemoryUserRepository)
    (hfreeE : ∀ k v, r.users.lookup k = some v → v.Email ≠ e)
    (hfreeU : ∀ i, i < n → ∀ k v, r.users.lookup k = some v →
      v.Username ≠ (calls i).username) :
    (Registrations.start r).Inv calls n e := by
  refine ⟨fun k v hl => Or.inr (fun i hi => hfreeU i hi k v hl), ?_, ?_, ?_⟩
  · intro i _ u h
    simp [Registrations.start] at h
  · intro _ i _ result h
    simp [Registrations.start] at h
  · rintro ⟨k, v, hl, hv⟩
    exact absurd hv (hfreeE k v hl)

/-- The invariant survives a stretch that leaves the store alone and returns
`ErrUserExists`, taken while a stored user has the email. -/
theorem Registrations.Inv_fail (calls : Nat → RegisterCall) (n : Nat) (e : String)
    (s t : Registrations) (i : Nat) (hs : s.Inv calls n e) (hi : i < n)
    (hE : s.store.HasEmail e) (hnf : ∀ result, s.phase i ≠ .finished result)
    (hstore : t.store = s.store) (hself : t.phase i = .finished (.error .ErrUserExists))
    (hother : ∀ j, j ≠ i → t.phase j = s.phase j) : t.Inv calls n e := by
  obtain ⟨hA, hB, _, hD⟩ := hs
  obtain ⟨w, u, k, hw, hwp, hk, hue, huniq, hrest⟩ := hD hE
  have hwi : w ≠ i := fun h => hnf (.ok u) (h ▸ hwp)
  have hEt : t.store.HasEmail e := by rw [hstore]; exact hE
  refine ⟨?_, ?_, fun h => absurd hEt h, fun _ => ⟨w, u, k, hw, ?_, ?_, hue, ?_, ?_⟩⟩
  · rw [hstore]; exact hA
  · intro j hj v hv
    by_cases hji : j = i
    · subst hji; rw [hself] at hv; cases hv
    · rw [hother j hji] at hv; exact hB j hj v hv
  · rw [hother w hwi]; exact hwp
  · rw [hstore]; exact hk
  · rw [hstore]; exact huniq
  · intro j hj hjw result hres
    by_cases hji : j = i
    · subst hji; rw [hself] at hres; cases hres; rfl
    · rw [hother j hji] at hres; exact hrest j hj hjw result hres

/-- The invariant survives a stretch that leaves the store alone and does not return. -/
theorem Registrations.Inv_advance (calls : Nat → RegisterCall) (n : Nat) (e : String)
    (s t : Registrations) (i : Nat) (hs : s.Inv calls n e)
    (hnf : ∀ result, s.phase i ≠ .finished result)
    (hstore : t.store = s.store) (hself : ∀ result, t.phase i ≠ .finished result)
    (hcreate : ∀ u, t.phase i = .create u → u.Email = e ∧ u.Username = (calls i).username)
    (hother : ∀ j, j ≠ i → t.phase j = s.phase j) : t.Inv calls n e := by
  obtain ⟨hA, hB, hC, hD⟩ := hs
  refine ⟨?_, ?_, ?_, ?_⟩
  · rw [hstore]; exact hA
  · intro j hj v hv
    by_cases hji : j = i
    · subst hji; exact hcreate v hv
    · rw [hother j hji] at hv; exact hB j hj v hv
  · rw [hstore]
    intro hE j hj result hres
    by_cases hji : j = i
    · subst hji; exact hself result hres
    · rw [hother j hji] at hres; exact hC hE j hj result hres
  · rw [hstore]
    intro hE
    obtain ⟨w, u, k, hw, hwp, hk, hue, huniq, hrest⟩ := hD hE
    have hwi : w ≠ i := fun h => hnf (.ok u) (h ▸ hwp)
    refine ⟨w, u, k, hw, ?_, hk, hue, huniq, ?_⟩
    · rw [hother w hwi]; exact hwp
    · intro j hj hjw result hres
      by_cases hji : j = i
      · subst hji; exact absurd hres (hself result)
      · rw [hother j hji] at hres; exact hrest j hj hjw result hres

/-- The invariant survives the `Create` that stores the first record with the email. -/
theorem Registrations.Inv_win (calls : Nat → RegisterCall) (n : Nat) (e : String)
    (s t : Registrations) (i : Nat) (u : User) (hs : s.Inv calls n e) (hi : i < n)
    (hE : ¬ s.store.HasEmail e) (hue : u.Email = e)
    (hstore : t.store = { users := s.store.users.insert u.ID u })
    (hself : t.phase i = .finished (.ok u))
    (hother : ∀ j, j ≠ i → t.phase j = s.phase j) : t.Inv calls n e := by
  obtain ⟨hA, hB, hC, _⟩ := hs
  have hlook : ∀ k v, t.store.users.lookup k = some v →
      (k = u.ID ∧ v = u) ∨ (k ≠ u.ID ∧ s.store.users.lookup k = some v) := by
    intro k v hl
    rw [hstore] at hl
    by_cases hk : k = u.ID
    · subst hk
      rw [AList.lookup_insert] at hl
      exact Or.inl ⟨rfl, (Option.some.inj hl).symm⟩
    · rw [AList.lookup_insert_ne hk] at hl
      exact Or.inr ⟨hk, hl⟩
  have hstored : t.store.users.lookup u.ID = some u := by
    rw [hstore]; exact AList.lookup_insert _
  have hEt : t.store.HasEmail e := ⟨u.ID, u, hstored, hue⟩
  refine ⟨?_, ?_, fun h => absurd hEt h,
    fun _ => ⟨i, u, u.ID, hi, hself, hstored, hue, ?_, ?_⟩⟩
  · intro k v hl
    rcases hlook k v hl with ⟨_, hv⟩ | ⟨_, hl1⟩
    · exact Or.inl (hv ▸ hue)
    · exact hA k v hl1
  · intro j hj v hv
    by_cases hji : j = i
    · subst hji; rw [hself] at hv; cases hv
    · rw [hother j hji] at hv; exact hB j hj v hv
  · intro k v hl hv
    rcases hlook k v hl with ⟨hk, _⟩ | ⟨_, hl1⟩
    · exact hk
    · exact absurd ⟨k, v, hl1, hv⟩ hE
  · intro j hj hji result hres
    rw [hother j hji] at hres
    exact absurd hres (hC hE j hj result)

theorem Registrations.step_finished (bc : Bcrypt) (ctx : Context)
    (calls : Nat → RegisterCall) (s : Registrations) (i : Nat) (result : Except Error User)
    (h : s.phase i = .finished result) : s.step bc ctx calls i = s := by
  cases s with
  | mk store phase =>
    simp only at h
    simp only [Registrations.step, h, RegisterCall.step, Registrations.mk.injEq, true_and]
    funext j
    by_cases hj : j = i
    · subst hj; simp [h]
    · simp [hj]

/-- The invariant survives every stretch of a call that registers the email with valid
fields. -/
theorem Registrations.Inv_step (bc : Bcrypt) (ctx : Context) (calls : Nat → RegisterCall)
    (n : Nat) (e : String) (s : Registrations) (i : Nat) (hs : s.Inv calls n e) (hi : i < n)
    (hemail : (calls i).email = e)
    (hvalid : ∃ u, NewUser bc (calls i).now (calls i).email (calls i).username
      (calls i).password = .ok u) :
    (s.step bc ctx calls i).Inv calls n e := by
  have hother := fun j (h : j ≠ i) => s.step_phase_ne bc ctx calls i j h
  have hself := s.step_phase_self bc ctx calls i
  have hstore : (s.step bc ctx calls i).store =
      ((calls i).step bc ctx s.store (s.phase i)).2 := rfl
  cases hph : s.phase i with
  | finished result => rw [s.step_finished bc ctx calls i result hph]; exact hs
  | lookupEmail =>
    have hnf : ∀ result, s.phase i ≠ .finished result := by simp [hph]
    rw [hph] at hself hstore
    cases h1 : s.store.GetByEmail ctx (calls i).email with
    | ok v =>
      simp only [RegisterCall.step, h1] at hself hstore
      obtain ⟨k, hk, hv⟩ := s.store.GetByEmail_ok ctx _ v h1
      exact Registrations.Inv_fail calls n e s _ i hs hi ⟨k, v, hk, hv.trans hemail⟩ hnf
        hstore hself hother
    | error err =>
      simp only [RegisterCall.step, h1] at hself hstore
      refine Registrations.Inv_advance calls n e s _ i hs hnf hstore ?_ ?_ hother
      · simp [hself]
      · simp [hself]
  | lookupUsername =>
    have hnf : ∀ result, s.phase i ≠ .finished result := by simp [hph]
    rw [hph] at hself hstore
    cases h2 : s.store.GetByUsername ctx (calls i).username with
    | ok v =>
      simp only [RegisterCall.step, h2] at hself hstore
      obtain ⟨k, hk, hv⟩ := s.store.GetByUsername_ok ctx _ v h2
      have hE : s.store.HasEmail e := by
        rcases hs.1 k v hk with h | h
        · exact ⟨k, v, hk, h⟩
        · exact absurd hv (h i hi)
      exact Registrations.Inv_fail calls n e s _ i hs hi hE hnf hstore hself hother
    | error err =>
      obtain ⟨u, hu⟩ := hvalid
      simp only [RegisterCall.step, h2, hu] at hself hstore
      obtain ⟨_, _, _, hash, _, hrec⟩ := NewUser_ok bc _ _ _ _ u hu
      refine Registrations.Inv_advance calls n e s _ i hs hnf hstore ?_ ?_ hother
      · simp [hself]
      · intro v hv
        rw [hself] at hv
        cases hv
        rw [hrec]
        exact ⟨hemail, rfl⟩
  | create u =>
    have hnf : ∀ result, s.phase i ≠ .finished result := by simp [hph]
    rw [hph] at hself hstore
    obtain ⟨hue, huu⟩ := hs.2.1 i hi u hph
    by_cases hE : s.store.HasEmail e
    · have hcol : s.store.Collides u := by
        obtain ⟨k, v, hk, hv⟩ := hE
        exact ⟨k, v, hk, Or.inl (hv.trans hue.symm)⟩
      simp only [RegisterCall.step, s.store.Create_of_collides ctx u hcol] at hself hstore
      exact Registrations.Inv_fail calls n e s _ i hs hi hE hnf hstore hself hother
    · have hcol : ¬ s.store.Collides u := by
        rintro ⟨k, v, hk, hv | hv⟩
        · exact hE ⟨k, v, hk, hv.trans hue⟩
        · rcases hs.1 k v hk with h | h
          · exact hE ⟨k, v, hk, h⟩
          · exact h i hi (hv.trans huu)
      simp only [RegisterCall.step, s.store.Create_of_not_collides ctx u hcol] at hself hstore
      exact Registrations.Inv_win calls n e s _ i u hs hi hE hue hstore hself hother

/-- The invariant survives every schedule over calls that register the email with valid
fields. -/
theorem Registrations.Inv_run (bc : Bcrypt) (ctx : Context) (calls : Nat → RegisterCall)
    (n : Nat) (e : String)
    (hemail : ∀ i, i < n → (calls i).email = e)
    (hvalid : ∀ i, i < n → ∃ u, NewUser bc (calls i).now (calls i).email (calls i).username
      (calls i).password = .ok u)
    (schedule : List Nat) : ∀ (s : Registrations), s.Inv calls n e →
    (∀ i, i ∈ schedule → i < n) → (s.run bc ctx calls schedule).Inv calls n e := by
  induction schedule with
  | nil => intro s hs _; exact hs
  | cons j rest ih =>
    intro s hs hsched
    have hj : j < n := hsched j (List.mem_cons_self j rest)
    exact ih (s.step bc ctx calls j)
      (Registrations.Inv_step bc ctx calls n e s j hs hj (hemail j hj) (hvalid j hj))
      (fun i hi => hsched i (List.mem_cons_of_mem j hi))

theorem NewUser_of_valid (bc : Bcrypt) (now : Time) (email username password hash : String)
    (he : email ≠ "") (hu : username ≠ "") (hp : password ≠ "")
    (hh : bc.GenerateFromPassword password = .ok hash) :
    ∃ u, NewUser bc now email username password = .ok u := by
  simp [NewUser, he, hu, hp, hh]

/-- C20, counterexample. Two concurrent `Register` calls use one email that no stored
user has, with different usernames. When the two usernames are those of the two stored
users, both calls fail with `ErrUserExists` at the username check and no user with the
email is stored; when the password is empty, both calls fail with `ErrInvalidPassword`.
This holds in each of the six orders in which the two stretches of the two calls can
run, so in neither case does a call succeed. -/
theorem concurrent_Register_without_winner :
    ((∀ i, (takenCalls i).email = "carol@example.com") ∧
     (takenCalls 0).username ≠ (takenCalls 1).username ∧
     pairEngine.userRepo.GetByEmail background "carol@example.com" =
       .error .ErrUserNotFound ∧
     (∀ schedule, schedule ∈ [[0, 0, 1, 1], [0, 1, 0, 1], [0, 1, 1, 0],
         [1, 0, 0, 1], [1, 0, 1, 0], [1, 1, 0, 0]] →
       (((Registrations.start pairEngine.userRepo).run sampleBcrypt background takenCalls
           schedule).phase 0 = .finished (.error .ErrUserExists) ∧
        ((Registrations.start pairEngine.userRepo).run sampleBcrypt background takenCalls
           schedule).phase 1 = .finished (.error .ErrUserExists) ∧
        ((Registrations.start pairEngine.userRepo).run sampleBcrypt background takenCalls
           schedule).store.GetByEmail background "carol@example.com" =
          .error .ErrUserNotFound))) ∧
    ((∀ i, (emptyPasswordCalls i).email = "carol@example.com") ∧
     (emptyPasswordCalls 0).username ≠ (emptyPasswordCalls 1).username ∧
     emptyEngine.userRepo.GetByEmail background "carol@example.com" =
       .error .ErrUserNotFound ∧
     (∀ schedule, schedule ∈ [[0, 0, 1, 1], [0, 1, 0, 1], [0, 1, 1, 0],
         [1, 0, 0, 1], [1, 0, 1, 0], [1, 1, 0, 0]] →
       (((Registrations.start emptyEngine.userRepo).run sampleBcrypt background
           emptyPasswordCalls schedule).phase 0 = .finished (.error .ErrInvalidPassword) ∧
        ((Registrations.start emptyEngine.userRepo).run sampleBcrypt background
           emptyPasswordCalls schedule).phase 1 = .finished (.error .ErrInvalidPassword) ∧
        ((Registrations.start emptyEngine.userRepo).run sampleBcrypt background
           emptyPasswordCalls schedule).store.GetByEmail background "carol@example.com" =
          .error .ErrUserNotFound))) := by
  refine ⟨⟨fun _ => rfl, by decide, by decide, by decide⟩,
    ⟨fun _ => rfl, by decide, by decide, by decide⟩⟩

/-- C20, amended. `n` concurrent `Register` calls, at least one, use the same email `e`
on a store holding no user with that email and no user with one of their usernames, each
with non-empty fields and a password the hashing accepts. Every schedule that gives each
call its three stretches lets all of them return; and whenever all of them have
returned, exactly one call has succeeded, every other call has failed with
`ErrUserExists`, and the record of the successful call is the only stored user with the
email. -/
theorem concurrent_Register_same_email (bc : Bcrypt) (ctx : Context)
    (calls : Nat → RegisterCall) (n : Nat) (e : String) (r : InMemoryUserRepository)
    (hn : 0 < n)
    (hemail : ∀ i, i < n → (calls i).email = e)
    (hvalid : ∀ i, i < n → e ≠ "" ∧ (calls i).username ≠ "" ∧
      (calls i).password ≠ "" ∧
      ∃ hash, bc.GenerateFromPassword (calls i).password = .ok hash)
    (hfreeE : ∀ k v, r.users.lookup k = some v → v.Email ≠ e)
    (hfreeU : ∀ i, i < n → ∀ k v, r.users.lookup k = some v →
      v.Username ≠ (calls i).username)
    (schedule : List Nat) (hsched : ∀ i, i ∈ schedule → i < n) :
    ((∀ i, i < n → 3 ≤ schedule.count i) →
      ((Registrations.start r).run bc ctx calls schedule).Complete n) ∧
    (((Registrations.start r).run bc ctx calls schedule).Complete n →
      ∃ w u k, w < n ∧
        ((Registrations.start r).run bc ctx calls schedule).phase w = .finished (.ok u) ∧
        (∀ j, j < n → j ≠ w →
          ((Registrations.start r).run bc ctx calls schedule).phase j =
            .finished (.error .ErrUserExists)) ∧
        ((Registrations.start r).run bc ctx calls schedule).store.users.lookup k = some u ∧
        u.Email = e ∧
        ∀ k1 v, ((Registrations.start r).run bc ctx calls schedule).store.users.lookup k1 =
          some v → v.Email = e → k1 = k) := by
  refine ⟨Registrations.complete_of_three bc ctx calls _ schedule n, fun hdone => ?_⟩
  have hnew : ∀ i, i < n → ∃ u, NewUser bc (calls i).now (calls i).email (calls i).username
      (calls i).password = .ok u := by
    intro i hi
    obtain ⟨he, hu, hp, hash, hh⟩ := hvalid i hi
    exact NewUser_of_valid bc _ _ _ _ hash (by rw [hemail i hi]; exact he) hu hp hh
  obtain ⟨_, _, hC, hD⟩ := Registrations.Inv_run bc ctx calls n e hemail hnew schedule
    (Registrations.start r) (Registrations.Inv_start calls n e r hfreeE hfreeU) hsched
  have hE : ((Registrations.start r).run bc ctx calls schedule).store.HasEmail e := by
    by_contra h
    obtain ⟨result, hres⟩ := hdone 0 hn
    exact hC h 0 hn result hres
  obtain ⟨w, u, k, hw, hwp, hk, hue, huniq, hrest⟩ := hD hE
  refine ⟨w, u, k, hw, hwp, fun j hj hjw => ?_, hk, hue, huniq⟩
  obtain ⟨result, hres⟩ := hdone j hj
  rw [hres, hrest j hj hjw result hres]

theorem concurrent_Register_same_email_witness :
    (∀ i, i < 2 → (carolCalls i).email = "carol@example.com") ∧
    (∀ i, i < 2 → 3 ≤ [0, 1, 0, 1, 1, 0].count i) ∧
    ((Registrations.start aliceEngine.userRepo).run sampleBcrypt background carolCalls
      [0, 1, 0, 1, 1, 0]).Complete 2 ∧
    (∃ w u k, w < 2 ∧
      ((Registrations.start aliceEngine.userRepo).run sampleBcrypt background carolCalls
        [0, 1, 0, 1, 1, 0]).phase w = .finished (.ok u) ∧
      (∀ j, j < 2 → j ≠ w →
        ((Registrations.start aliceEngine.userRepo).run sampleBcrypt background carolCalls
          [0, 1, 0, 1, 1, 0]).phase j = .finished (.error .ErrUserExists)) ∧
      ((Registrations.start aliceEngine.userRepo).run sampleBcrypt background carolCalls
        [0, 1, 0, 1, 1, 0]).store.users.lookup k = some u ∧
      u.Email = "carol@example.com" ∧
      ∀ k1 v, ((Registrations.start aliceEngine.userRepo).run sampleBcrypt background
        carolCalls [0, 1, 0, 1, 1, 0]).store.users.lookup k1 = some v →
        v.Email = "carol@example.com" → k1 = k) ∧
    ((Registrations.start aliceEngine.userRepo).run sampleBcrypt background carolCalls
      [0, 1, 0, 1, 1, 0]).phase 1 =
      .finished (.ok { ID := "id4", Email := "carol@example.com", Username := "caroline",
                       Password := "h:carol-password", CreatedAt := 8, UpdatedAt := 8 }) ∧
    ((Registrations.start aliceEngine.userRepo).run sampleBcrypt background carolCalls
      [0, 1, 0, 1, 1, 0]).phase 0 = .finished (.error .ErrUserExists) := by
  have hemail : ∀ i, i < 2 → (carolCalls i).email = "carol@example.com" := fun _ _ => rfl
  have hcount : ∀ i, i < 2 → 3 ≤ [0, 1, 0, 1, 1, 0].count i := by decide
  have hstored : ∀ k v, aliceEngine.userRepo.users.lookup k = some v → v = aliceRecord := by
    intro k v hl
    have hmem := (GoMap.mem_entries_iff _ k v).2 hl
    have hent : aliceEngine.userRepo.users.entries = [⟨"id1", aliceRecord⟩] := by decide
    rw [hent] at hmem
    simp only [List.mem_singleton, Sigma.mk.inj_iff] at hmem
    exact eq_of_heq hmem.2
  have h := concurrent_Register_same_email sampleBcrypt background carolCalls 2
    "carol@example.com" aliceEngine.userRepo (by decide) hemail
    (fun i _ => ⟨by decide, by simp only [carolCalls]; split_ifs <;> decide,
      by simp [carolCalls], _, rfl⟩)
    (fun k v hl => by rw [hstored k v hl]; decide)
    (fun i _ k v hl => by
      rw [hstored k v hl]; simp only [carolCalls]; split_ifs <;> decide)
    [0, 1, 0, 1, 1, 0] (by decide)
  exact ⟨hemail, hcount, h.1 hcount, h.2 (h.1 hcount), by decide, by decide⟩

/-! ## Theorems: the user-list handler -/

/-- With a non-negative offset and limit and no overflow in `start + limit`, the handler
passes a positive limit on and answers with the page. -/
theorem ListUsers_handler_page (u : UserUseCase) (ctx : Context) (offset limit : Int)
    (ho : 0 ≤ offset) (hl : 0 ≤ limit)
    (hsum : offset + (if limit = 0 then 10 else limit) ≤ maxInt) :
    0 < (if limit = 0 then (10 : Int) else limit) ∧
    UserHandler.ListUsers u ctx "GET" offset limit =
      .returns { status := 200, Success := true, Error := "",
                 Data := some (((u.userRepo.users.entries.map (fun e => e.2)).drop
                   offset.toNat).take (if limit = 0 then (10 : Int) else limit).toNat) } := by
  have hpos : 0 < (if limit = 0 then (10 : Int) else limit) := by
    split_ifs with h
    · decide
    · omega
  refine ⟨hpos, ?_⟩
  unfold UserHandler.ListUsers UserUseCase.ListUsers
  rw [if_neg (by decide)]
  simp only
  rw [List_page u.userRepo ctx offset _ ho hpos hsum]

/-- C21, failing inputs. The handler passes a negative limit on unchanged: on the empty
store, `limit = -1` makes `List` take `users[0:-1]`, which panics; a negative offset
makes it take `users[-1:0]`, which panics; and on a store of one user `offset = 1` with
the largest limit overflows `start + limit` and panics as well. -/
theorem ListUsers_handler_panics :
    UserHandler.ListUsers { userRepo := NewInMemoryUserRepository } background "GET" 0 (-1)
      = .panics ∧
    UserHandler.ListUsers { userRepo := NewInMemoryUserRepository } background "GET" (-1) 0
      = .panics ∧
    UserHandler.ListUsers
      { userRepo := NewInMemoryUserRepository.run background [UserOp.Create alice] }
      background "GET" 1 9223372036854775807 = .panics ∧
    IsGoInt (-1) ∧ IsGoInt 0 ∧ IsGoInt 1 ∧ IsGoInt 9223372036854775807 := by
  refine ⟨by decide, by decide, by decide, by decide, by decide, by decide, by decide⟩
/-! ## Theorems: identifier resolution -/

/-- C22, counterexample. Once an `Update` has given a third record Alice's email, two
users `A` have `Email = x` while another user has `Username = x`, and the password
verifies for both. The claim then asks the same login to return a session of Alice and
a session of the third user. The range of the email lookup decides: the store returns a
session of the third user, and the same records met in another order return a session
of Alice. -/
theorem login_by_email_is_ambiguous :
    (duplicateEngine.userRepo.users.lookup "id1" = some aliceRecord ∧
     duplicateEngine.userRepo.users.lookup "id2" = some bobRecord ∧
     duplicateEngine.userRepo.users.lookup "id3" = some carolRecord) ∧
    (aliceRecord.Email = "alice@example.com" ∧ carolRecord.Email = "alice@example.com" ∧
     bobRecord.Username = "alice@example.com" ∧ aliceRecord.ID ≠ carolRecord.ID) ∧
    (aliceRecord.CheckPassword sampleBcrypt "correct-password" = true ∧
     carolRecord.CheckPassword sampleBcrypt "correct-password" = true ∧
     zeroRand 32 = .ok (List.replicate 32 0)) ∧
    (∀ k, reorderedEngine.userRepo.users.lookup k =
      duplicateEngine.userRepo.users.lookup k) ∧
    (∃ s a1, duplicateEngine.Login sampleBcrypt zeroRand 10 11 "s1" background
        "alice@example.com" "correct-password" = (.ok s, a1) ∧ s.UserID = carolRecord.ID) ∧
    (∃ s a1, reorderedEngine.Login sampleBcrypt zeroRand 10 11 "s1" background
        "alice@example.com" "correct-password" = (.ok s, a1) ∧ s.UserID = aliceRecord.ID) ∧
    (∀ a : AuthUseCase, ∀ now created : Time, ∀ uuid : String,
      ¬ ((∃ s a1, a.Login sampleBcrypt zeroRand now created uuid background
            "alice@example.com" "correct-password" = (.ok s, a1) ∧
            s.UserID = aliceRecord.ID) ∧
         (∃ s a1, a.Login sampleBcrypt zeroRand now created uuid background
            "alice@example.com" "correct-password" = (.ok s, a1) ∧
            s.UserID = carolRecord.ID))) := by
  refine ⟨⟨by decide, by decide, by decide⟩, ⟨by decide, by decide, by decide, by decide⟩,
    ⟨by decide, by decide, rfl⟩, fun k => ?_, ?_, ?_, ?_⟩
  · exact AList.perm_lookup (by decide)
  · exact ⟨_, _, rfl, by decide⟩
  · exact ⟨_, _, rfl, by decide⟩
  · rintro a now created uuid ⟨⟨s, a1, h1, h2⟩, ⟨s', a1', h1', h2'⟩⟩
    rw [h1] at h1'
    cases h1'
    exact absurd (h2.symm.trans h2') (by decide)

/-- C22, amended. When `A` is the only stored user with email `x` and some user `B` has
username `x`, the email lookup returns `A` and `Login` never consults the username lookup
(which would succeed): it checks the password against `A` only. When the password
verifies for `A`, `Login` returns a session of `A`, the random source delivering the
token bytes; when it does not verify for `A`, `Login` fails with `ErrInvalidPassword` and
changes nothing, whatever `B`'s password is. -/
theorem Login_resolves_by_email_first (a : AuthUseCase) (bc : Bcrypt) (rand : RandReader)
    (now created : Time) (uuid : String) (ctx : Context) (x p : String) (A B : User)
    (kA kB : String)
    (hA : a.userRepo.users.lookup kA = some A) (hAx : A.Email = x)
    (hAonly : ∀ k v, a.userRepo.users.lookup k = some v → v.Email = x → v = A)
    (hB : a.userRepo.users.lookup kB = some B) (hBx : B.Username = x) :
    a.userRepo.GetByEmail ctx x = .ok A ∧
    (∃ v, a.userRepo.GetByUsername ctx x = .ok v) ∧
    a.findUser ctx x = .ok A ∧
    (A.CheckPassword bc p = true → ∀ b, rand 32 = .ok b →
      ∃ s a1, a.Login bc rand now created uuid ctx x p = (.ok s, a1) ∧ s.UserID = A.ID) ∧
    (A.CheckPassword bc p = false →
      a.Login bc rand now created uuid ctx x p = (.error .ErrInvalidPassword, a)) := by
  have hE : a.userRepo.GetByEmail ctx x = .ok A := by
    rw [← hAx]
    exact a.userRepo.GetByEmail_unique ctx A kA hA (fun k v hl hv => hAonly k v hl (hv.trans hAx))
  have hU : ∃ v, a.userRepo.GetByUsername ctx x = .ok v := by
    cases h : a.userRepo.GetByUsername ctx x with
    | ok v => exact ⟨v, rfl⟩
    | error err => exact absurd hBx ((a.userRepo.GetByUsername_error ctx x err h).2 kB B hB)
  have hfind : a.findUser ctx x = .ok A := by
    simp [AuthUseCase.findUser, hE]
  refine ⟨hE, hU, hfind, fun hp b hr => ?_, fun hp => ?_⟩
  · exact ⟨_, _, a.Login_ok bc rand now created uuid ctx x p A b hfind hp hr, rfl⟩
  · exact a.Login_wrong_password bc rand now created uuid ctx x p A hfind hp

theorem Login_resolves_by_email_first_witness :
    capturedEngine.userRepo.users.lookup "id1" = some aliceRecord ∧
    capturedEngine.userRepo.users.lookup "id2" = some bobRecord ∧
    bobRecord.CheckPassword sampleBcrypt "hunter2" = true ∧
    aliceRecord.CheckPassword sampleBcrypt "hunter2" = false ∧
    capturedEngine.Login sampleBcrypt zeroRand 10 11 "s1" background
        "alice@example.com" "hunter2" = (.error .ErrInvalidPassword, capturedEngine) ∧
    (∃ s a1, capturedEngine.Login sampleBcrypt zeroRand 10 11 "s1" background
        "alice@example.com" "correct-password" = (.ok s, a1) ∧ s.UserID = "id1") := by
  have hA : capturedEngine.userRepo.users.lookup "id1" = some aliceRecord := by decide
  have hB : capturedEngine.userRepo.users.lookup "id2" = some bobRecord := by decide
  have honly : ∀ k v, capturedEngine.userRepo.users.lookup k = some v →
      v.Email = "alice@example.com" → v = aliceRecord := by
    intro k v hl hv
    have hmem := (GoMap.mem_entries_iff _ k v).2 hl
    have hent : capturedEngine.userRepo.users.entries =
        [⟨"id2", bobRecord⟩, ⟨"id1", aliceRecord⟩] := by decide
    rw [hent] at hmem
    simp only [List.mem_cons, List.mem_singleton, Sigma.mk.inj_iff, List.not_mem_nil,
      or_false] at hmem
    rcases hmem with ⟨_, h⟩ | ⟨_, h⟩
    · have h := eq_of_heq h
      subst h
      exact absurd hv (by decide)
    · exact eq_of_heq h
  have h1 := Login_resolves_by_email_first capturedEngine sampleBcrypt zeroRand 10 11 "s1"
    background "alice@example.com" "hunter2" aliceRecord bobRecord "id1" "id2" hA rfl honly
    hB rfl
  have h2 := Login_resolves_by_email_first capturedEngine sampleBcrypt zeroRand 10 11 "s1"
    background "alice@example.com" "correct-password" aliceRecord bobRecord "id1" "id2" hA
    rfl honly hB rfl
  exact ⟨hA, hB, by decide, by decide, h1.2.2.2.2 (by decide),
    h2.2.2.2.1 (by decide) _ rfl⟩

/-! ## Theorems: lazy expiry and the sweep -/

/-- C23. For a session stored under a token, `DeleteExpired` run at `now` removes it
exactly when `ValidateSession` of that token run at `now` fails with `ErrSessionExpired`;
and after a `DeleteExpired` at `now`, a `ValidateSession` at the same reading either fails
with `ErrSessionNotFound` or returns a stored session that has not expired. -/
theorem sweep_agrees_with_lazy_expiry (a : AuthUseCase) (now : Time) (ctx ctx1 : Context) :
    (∀ t s, a.sessionRepo.sessions.lookup t = some s →
      ((a.sessionRepo.DeleteExpired now ctx).2.sessions.lookup t = none ↔
        (a.ValidateSession now ctx1 t).1 = .error .ErrSessionExpired)) ∧
    (∀ t,
      ((a.sessionRepo.DeleteExpired now ctx).2.sessions.lookup t = none ∧
        ({ a with sessionRepo := (a.sessionRepo.DeleteExpired now ctx).2 } :
          AuthUseCase).ValidateSession now ctx1 t =
          (.error .ErrSessionNotFound,
            { a with sessionRepo := (a.sessionRepo.DeleteExpired now ctx).2 })) ∨
      (∃ s, (a.sessionRepo.DeleteExpired now ctx).2.sessions.lookup t = some s ∧
        ¬ s.ExpiresAt < now ∧
        ({ a with sessionRepo := (a.sessionRepo.DeleteExpired now ctx).2 } :
          AuthUseCase).ValidateSession now ctx1 t =
          (.ok s, { a with sessionRepo := (a.sessionRepo.DeleteExpired now ctx).2 }))) := by
  have key : ∀ t, (a.sessionRepo.DeleteExpired now ctx).2.sessions.lookup t =
      (a.sessionRepo.sessions.lookup t).filter (fun s => !Time.After now s.ExpiresAt) :=
    fun t => GoMap.lookup_rangeDelete a.sessionRepo.sessions _ t
  constructor
  · intro t s hl
    by_cases hexp : s.ExpiresAt < now
    · rw [a.ValidateSession_expired now ctx1 t s hl hexp, key, hl]
      simp [Option.filter, Time.After, hexp]
    · rw [a.ValidateSession_live now ctx1 t s hl hexp, key, hl]
      simp [Option.filter, Time.After, hexp]
  · intro t
    cases h : (a.sessionRepo.DeleteExpired now ctx).2.sessions.lookup t with
    | none =>
      exact Or.inl ⟨rfl, AuthUseCase.ValidateSession_absent _ now ctx1 t h⟩
    | some s =>
      have hlive : ¬ s.ExpiresAt < now := by
        have h2 := h
        rw [key] at h2
        cases hr : a.sessionRepo.sessions.lookup t with
        | none => rw [hr] at h2; cases h2
        | some w =>
          rw [hr] at h2
          by_cases hw : w.ExpiresAt < now
          · simp [Option.filter, Time.After, hw] at h2
          · simp [Option.filter, Time.After, hw] at h2
            subst h2
            exact hw
      exact Or.inr ⟨s, rfl, hlive, AuthUseCase.ValidateSession_live _ now ctx1 t s h hlive⟩

end IamService
